import Mathlib

/-!
# Verification of the Alpaca positions snapshot job

A shallow embedding of the job in `dashboard/update_jobs/positions_job.py`.

Modelling conventions:

* A wall-clock instant is a `Nat`: seconds since the Unix epoch.  Python's
  naive datetime arithmetic (instant + timedelta) is exact addition of
  seconds; calendar display goes through a proleptic-Gregorian conversion.
  All clock reads inside one run of the job are modelled as the single
  instant at which the run executes (the run is one process moment).
* Python floats coming back from the Alpaca API are decimal values; the
  model carries them exactly as scaled decimals (mantissa and power of
  ten).  The conversion performed by the script, standard JSON encoding
  and re-parsing are modelled on these exact decimals.
* Exceptions are values of an inductive type, and fallible steps return
  them through Except.
* The trading client and the filesystem are parameters: the account and
  positions the API would yield (or the transport error it would raise),
  and the outcome of opening/writing the snapshot file.
-/

/-- A decimal number: the value m / 10 ^ e.  This is the model of the
floating-point numbers flowing through the job. -/
structure Dec where
  m : Int
  e : Nat
deriving DecidableEq

/-- The rational value of a decimal. -/
def Dec.val (d : Dec) : ℚ := (d.m : ℚ) / (10 : ℚ) ^ d.e

/-- Strip factors of ten shared by the mantissa and the scale, the way the
shortest float display does. -/
def canonAux : Int → Nat → Dec
  | m, 0 => ⟨m, 0⟩
  | m, e + 1 => if m % 10 = 0 then canonAux (m / 10) e else ⟨m, e + 1⟩

/-- Canonical form of a decimal: trailing zero fraction digits removed. -/
def Dec.canon (d : Dec) : Dec := canonAux d.m d.e

/-! ## Time: instants, the +8h shift, Gregorian display -/

/-- get_malaysia_time: the current UTC instant shifted by a fixed +8 hours
(datetime.datetime.utcnow() + datetime.timedelta(hours=8)). -/
def get_malaysia_time (utc_now : Nat) : Nat := utc_now + 8 * 3600

/-- A Gregorian calendar date-time, for display. -/
structure Civil where
  year : Nat
  month : Nat
  day : Nat
  hour : Nat
  minute : Nat
  second : Nat
deriving DecidableEq

/-- Convert an epoch-seconds instant to its Gregorian date-time
(civil-from-days on the proleptic Gregorian calendar, as Python's
datetime displays naive instants). -/
def civilOfSecs (t : Nat) : Civil :=
  let days := t / 86400
  let secs := t % 86400
  let z := days + 719468
  let era := z / 146097
  let doe := z % 146097
  let yoe := (doe - doe / 1460 + doe / 36524 - doe / 146096) / 365
  let doy := doe - (365 * yoe + yoe / 4 - yoe / 100)
  let mp := (5 * doy + 2) / 153
  let d := doy - (153 * mp + 2) / 5 + 1
  let m := if mp < 10 then mp + 3 else mp - 9
  let y := if m ≤ 2 then yoe + era * 400 + 1 else yoe + era * 400
  { year := y, month := m, day := d,
    hour := secs / 3600, minute := secs % 3600 / 60, second := secs % 60 }

/-- The decimal digit character of n % 10. -/
def digitChar10 (n : Nat) : Char := Char.ofNat (48 + n % 10)

/-- Decimal digits of a natural number, most significant first. -/
def natChars (n : Nat) : List Char :=
  if n < 10 then [digitChar10 n]
  else natChars (n / 10) ++ [digitChar10 n]
decreasing_by exact Nat.div_lt_self (by omega) (by omega)

/-- Exactly w decimal digits of n % 10 ^ w, zero padded, most significant
first. -/
def natCharsPad : Nat → Nat → List Char
  | 0, _ => []
  | w + 1, n => natCharsPad w (n / 10) ++ [digitChar10 n]

/-- Zero-pad the decimal form of n to at least w digits (no truncation). -/
def padZero (w n : Nat) : String :=
  if n < 10 ^ w then String.mk (natCharsPad w n) else String.mk (natChars n)

/-- strftime with format YYYYMMDD_HHMMSS applied to an instant. -/
def strftimeYmdHMS (t : Nat) : String :=
  let c := civilOfSecs t
  padZero 4 c.year ++ padZero 2 c.month ++ padZero 2 c.day ++ "_" ++
    padZero 2 c.hour ++ padZero 2 c.minute ++ padZero 2 c.second

/-- datetime.isoformat() applied to an instant (whole seconds: the model
has no sub-second component, and isoformat omits a zero microsecond). -/
def isoformat (t : Nat) : String :=
  let c := civilOfSecs t
  padZero 4 c.year ++ "-" ++ padZero 2 c.month ++ "-" ++ padZero 2 c.day ++ "T" ++
    padZero 2 c.hour ++ ":" ++ padZero 2 c.minute ++ ":" ++ padZero 2 c.second

/-! ## Environment and configuration -/

/-- The three environment variables the script reads (os.getenv: None when
the variable is unset). -/
structure Env where
  alpaca_api_key : Option String
  alpaca_secret_key : Option String
  alpaca_paper : Option String
deriving DecidableEq

/-- Python truthiness of an os.getenv result: None and the empty string
are falsy. -/
def pyTruthy : Option String → Bool
  | none => false
  | some s => !s.isEmpty

/-- Lowercase one character (str.lower of Python restricted to the ASCII
letters, which is all the "true" comparison can be sensitive to). -/
def lowerChar (c : Char) : Char :=
  if 'A' ≤ c ∧ c ≤ 'Z' then Char.ofNat (c.toNat + 32) else c

/-- str.lower applied to a string. -/
def strLower (s : String) : String := String.mk (s.toList.map lowerChar)

/-- ALPACA_PAPER = os.getenv('ALPACA_PAPER', 'true').lower() == 'true'. -/
def ALPACA_PAPER (env : Env) : Bool :=
  strLower (env.alpaca_paper.getD "true") == "true"

/-- The snapshot directory: Path(__file__).parent.parent / 'data' /
'snapshots', rendered relative to the repository root. -/
def DATA_DIR : String := "dashboard/data/snapshots"

/-! ## UUIDs -/

/-- The lowercase hex character of n % 16. -/
def hexDigitChar (n : Nat) : Char :=
  if n % 16 < 10 then Char.ofNat (48 + n % 16) else Char.ofNat (87 + n % 16)

/-- Exactly w hex digits of n % 16 ^ w, most significant first. -/
def hexCharsPad : Nat → Nat → List Char
  | 0, _ => []
  | w + 1, n => hexCharsPad w (n / 16) ++ [hexDigitChar n]

/-- str applied to a uuid.UUID whose 128-bit integer value is u: the
canonical 8-4-4-4-12 lowercase hex form. -/
def uuidStr (u : Nat) : String :=
  let n := u % 2 ^ 128
  String.mk (hexCharsPad 8 (n / 2 ^ 96)) ++ "-" ++
    String.mk (hexCharsPad 4 (n / 2 ^ 80)) ++ "-" ++
    String.mk (hexCharsPad 4 (n / 2 ^ 64)) ++ "-" ++
    String.mk (hexCharsPad 4 (n / 2 ^ 48)) ++ "-" ++
    String.mk (hexCharsPad 12 n)

/-! ## Python values and exceptions -/

/-- Exceptions raised by the modelled code paths. -/
inductive PyExc where
  | valueError (msg : String)
  | typeError (msg : String)
  | transportError (msg : String)
  | ioError (msg : String)
deriving DecidableEq

/-- str applied to the exception: its message text. -/
def PyExc.text : PyExc → String
  | .valueError msg => msg
  | .typeError msg => msg
  | .transportError msg => msg
  | .ioError msg => msg

/-- The Python values the job builds and serializes: JSON-native values,
uuid.UUID instances, and any other opaque object (tagged by its type
name). -/
inductive PyVal where
  | str (s : String)
  | float (d : Dec)
  | bool (b : Bool)
  | uuid (u : Nat)
  | dict (fields : List (String × PyVal))
  | list (items : List PyVal)
  | foreign (typeName : String)

/-- The type name quoted in the base encoder's error message. -/
def pyTypeName : PyVal → String
  | .str _ => "str"
  | .float _ => "float"
  | .bool _ => "bool"
  | .uuid _ => "UUID"
  | .dict _ => "dict"
  | .list _ => "list"
  | .foreign t => t

/-! ## The JSON document model and the custom encoder -/

/-- A JSON document. Numbers are exact decimals (see the header note);
object members keep insertion order. -/
inductive JValue where
  | null
  | bool (b : Bool)
  | num (d : Dec)
  | str (s : String)
  | arr (items : List JValue)
  | obj (members : List (String × JValue))

/-- json.JSONEncoder.default: the base hook refuses every value it is
handed. -/
def jsonEncoderBaseDefault (o : PyVal) : Except PyExc PyVal :=
  .error (.typeError ("Object of type " ++ pyTypeName o ++
    " is not JSON serializable"))

/-- The script's JSONEncoder.default override: uuid.UUID instances become
their canonical string; everything else falls through to the base hook. -/
def JSONEncoder.default (o : PyVal) : Except PyExc PyVal :=
  match o with
  | .uuid u => .ok (.str (uuidStr u))
  | o => jsonEncoderBaseDefault o

mutual

/-- Serialization of a Python value to a JSON document under the script's
encoder: natives encode structurally; a non-native value goes through
JSONEncoder.default and the returned replacement is encoded (the hook here
only ever returns strings, so one replacement step is modelled). -/
def serializePy : PyVal → Except PyExc JValue
  | .str s => .ok (.str s)
  | .float d => .ok (.num d)
  | .bool b => .ok (.bool b)
  | .dict fs =>
    match serializeFields fs with
    | .ok ms => .ok (.obj ms)
    | .error e => .error e
  | .list xs =>
    match serializeItems xs with
    | .ok vs => .ok (.arr vs)
    | .error e => .error e
  | .uuid u =>
    match JSONEncoder.default (.uuid u) with
    | .ok (.str s) => .ok (.str s)
    | .ok _ => .error (.typeError "re-encoding of a non-string replacement")
    | .error e => .error e
  | .foreign t =>
    match JSONEncoder.default (.foreign t) with
    | .ok (.str s) => .ok (.str s)
    | .ok _ => .error (.typeError "re-encoding of a non-string replacement")
    | .error e => .error e

/-- Serialize dict members left to right, stopping at the first failure. -/
def serializeFields : List (String × PyVal) → Except PyExc (List (String × JValue))
  | [] => .ok []
  | (k, v) :: fs =>
    match serializePy v with
    | .error e => .error e
    | .ok j =>
      match serializeFields fs with
      | .error e => .error e
      | .ok ms => .ok ((k, j) :: ms)

/-- Serialize list items left to right, stopping at the first failure. -/
def serializeItems : List PyVal → Except PyExc (List JValue)
  | [] => .ok []
  | v :: xs =>
    match serializePy v with
    | .error e => .error e
    | .ok j =>
      match serializeItems xs with
      | .error e => .error e
      | .ok vs => .ok (j :: vs)

end

/-! ## The Alpaca client and the fetch step -/

/-- The account summary the trading client returns, with monetary fields
as the exact decimal values of the API response (the script converts each
to float). The status/side/exchange enums of the client are string-valued
and modelled as strings. -/
structure RawAccount where
  id : Nat
  cash : Dec
  portfolio_value : Dec
  buying_power : Dec
  currency : String
  status : String
  trading_blocked : Bool
  equity : Dec
deriving DecidableEq

/-- One open position as the trading client returns it. -/
structure RawPosition where
  symbol : String
  qty : Dec
  market_value : Dec
  cost_basis : Dec
  unrealized_pl : Dec
  unrealized_plpc : Dec
  current_price : Dec
  avg_entry_price : Dec
  side : String
  exchange : String
deriving DecidableEq

/-- The trading client as the job sees it: what each of the two remote
calls would yield, or the transport error it would raise. -/
structure AlpacaApi where
  get_account : Except PyExc RawAccount
  get_all_positions : Except PyExc (List RawPosition)

/-- Observable steps of one run, in order: client construction and the
two network calls. -/
inductive Event where
  | createClient
  | netGetAccount
  | netGetAllPositions
deriving DecidableEq

/-- The position dict appended for each position. -/
def positionItem (p : RawPosition) : PyVal :=
  .dict [
    ("symbol", .str p.symbol),
    ("qty", .float p.qty),
    ("market_value", .float p.market_value),
    ("cost_basis", .float p.cost_basis),
    ("unrealized_pl", .float p.unrealized_pl),
    ("unrealized_plpc", .float p.unrealized_plpc),
    ("current_price", .float p.current_price),
    ("avg_entry_price", .float p.avg_entry_price),
    ("side", .str p.side),
    ("exchange", .str p.exchange)]

/-- The account_data dict built from the fetched account. -/
def accountData (account : RawAccount) (now : Nat) : PyVal :=
  .dict [
    ("id", .uuid account.id),
    ("cash", .float account.cash),
    ("portfolio_value", .float account.portfolio_value),
    ("buying_power", .float account.buying_power),
    ("currency", .str account.currency),
    ("account_status", .str account.status),
    ("trading_blocked", .bool account.trading_blocked),
    ("equity", .float account.equity),
    ("updated_at", .str (isoformat (get_malaysia_time now)))]

/-- fetch_alpaca_data: validate credentials, build the client, fetch the
account and the positions, and shape the combined record.  Returns the
result (or the exception raised) together with the trace of client /
network steps reached. -/
def fetch_alpaca_data (env : Env) (now : Nat) (api : AlpacaApi) :
    Except PyExc PyVal × List Event :=
  if !pyTruthy env.alpaca_api_key || !pyTruthy env.alpaca_secret_key then
    (.error (.valueError "Missing Alpaca API credentials"), [])
  else
    match api.get_account with
    | .error e => (.error e, [.createClient, .netGetAccount])
    | .ok account =>
      match api.get_all_positions with
      | .error e =>
        (.error e, [.createClient, .netGetAccount, .netGetAllPositions])
      | .ok positions =>
        (.ok (.dict [
          ("account", accountData account now),
          ("positions", .list (positions.map positionItem)),
          ("cash", .float account.cash),
          ("timestamp", .str (isoformat (get_malaysia_time now)))]),
         [.createClient, .netGetAccount, .netGetAllPositions])

/-! ## JSON output text: json.dump(data, f, indent=2, cls=JSONEncoder) -/

/-- Exactly four lowercase hex digits of n % 0x10000. -/
def hex4 (n : Nat) : List Char := hexCharsPad 4 n

/-- The escape of a single character in a JSON string under ensure_ascii:
the two-character short escapes, then u-escapes for other control or
non-ASCII characters, with a surrogate pair above U+FFFF. -/
def escapeChar (c : Char) : List Char :=
  if c = '"' then ['\\', '"']
  else if c = '\\' then ['\\', '\\']
  else if c.toNat = 8 then ['\\', 'b']
  else if c.toNat = 9 then ['\\', 't']
  else if c.toNat = 10 then ['\\', 'n']
  else if c.toNat = 12 then ['\\', 'f']
  else if c.toNat = 13 then ['\\', 'r']
  else if c.toNat < 0x20 then '\\' :: 'u' :: hex4 c.toNat
  else if c.toNat ≤ 0x7e then [c]
  else if c.toNat < 0x10000 then '\\' :: 'u' :: hex4 c.toNat
  else
    ('\\' :: 'u' :: hex4 (0xd800 + (c.toNat - 0x10000) / 0x400)) ++
      ('\\' :: 'u' :: hex4 (0xdc00 + (c.toNat - 0x10000) % 0x400))

/-! ## The writer and the job runner -/

/-- The filesystem outcome for the one snapshot write of a run: the open
may fail, the write may fail, or both succeed. -/
inductive FsW where
  | ok
  | openFail (e : PyExc)
  | writeFail (e : PyExc)
deriving DecidableEq

/-- What is on disk at the snapshot path after save_data: nothing (open
never succeeded), an incomplete prefix (the incremental dump stopped at a
serialization or write error; nothing removes it), or the full text. -/
inductive FileEffect where
  | noFile
  | incomplete
  | written (content : String)

/-- List of spaces. -/
def spacesN (n : Nat) : List Char := List.replicate n ' '

/-- The escaped body of a JSON string (without the surrounding quotes). -/
def escapeString (s : String) : List Char :=
  (s.toList.map escapeChar).flatten

/-- A JSON string token: quote, escaped body, quote. -/
def renderString (s : String) : List Char :=
  '"' :: escapeString s ++ ['"']

/-- The float display of a decimal: canonical form, sign, integer digits,
a decimal point that is always present, fraction digits (at least one, as
repr of a float).  Exponent display for very large or small magnitudes is
not modelled; the job's plain monetary data never reaches it. -/
def renderDec (d : Dec) : List Char :=
  let c := d.canon
  let a := c.m.natAbs
  let sign : List Char := if c.m < 0 then ['-'] else []
  if c.e = 0 then sign ++ natChars a ++ ['.', '0']
  else sign ++ natChars (a / 10 ^ c.e) ++ '.' :: natCharsPad c.e a

mutual

/-- The text json.dump produces for a value at nesting level lvl with
indent=2 and ensure_ascii (the default separators for an indented dump:
a comma between items, colon-space between key and value). -/
def renderJ : Nat → JValue → List Char
  | _, .null => ['n', 'u', 'l', 'l']
  | _, .bool true => ['t', 'r', 'u', 'e']
  | _, .bool false => ['f', 'a', 'l', 's', 'e']
  | _, .num d => renderDec d
  | _, .str s => renderString s
  | _, .arr [] => ['[', ']']
  | lvl, .arr (x :: xs) =>
    '[' :: '\n' :: spacesN (2 * (lvl + 1)) ++ renderJ (lvl + 1) x ++
      renderArrTail (lvl + 1) xs ++ '\n' :: spacesN (2 * lvl) ++ [']']
  | _, .obj [] => ['{', '}']
  | lvl, .obj (kv :: kvs) =>
    '{' :: '\n' :: spacesN (2 * (lvl + 1)) ++ renderMember (lvl + 1) kv ++
      renderObjTail (lvl + 1) kvs ++ '\n' :: spacesN (2 * lvl) ++ ['}']

/-- One object member: key string, colon, space, value. -/
def renderMember : Nat → String × JValue → List Char
  | lvl, (k, v) => renderString k ++ ':' :: ' ' :: renderJ lvl v

/-- Second and later array items, each preceded by a comma, a newline and
the indentation. -/
def renderArrTail : Nat → List JValue → List Char
  | _, [] => []
  | lvl, x :: xs =>
    ',' :: '\n' :: spacesN (2 * lvl) ++ renderJ lvl x ++ renderArrTail lvl xs

/-- Second and later object members, each preceded by a comma, a newline
and the indentation. -/
def renderObjTail : Nat → List (String × JValue) → List Char
  | _, [] => []
  | lvl, kv :: kvs =>
    ',' :: '\n' :: spacesN (2 * lvl) ++ renderMember lvl kv ++ renderObjTail lvl kvs

end

/-- The full file text of json.dump(j, f, indent=2). -/
def json_dump_indent2 (j : JValue) : String := String.mk (renderJ 0 j)

/-- save_data: build the timestamped filename from the current (UTC+8
shifted) time, open the file and dump the record into it.  Any exception
raised while opening, serializing or writing is re-raised unchanged; on
success the path of the written file is returned.  The on-disk effect is
reported alongside: a failed dump leaves whatever prefix was already
written (nothing removes it). -/
def save_data (data : PyVal) (agent_name : String) (now : Nat) (fs : FsW) :
    Except PyExc String × FileEffect :=
  let timestamp := strftimeYmdHMS (get_malaysia_time now)
  let filename := agent_name ++ "_" ++ timestamp ++ ".json"
  let filepath := DATA_DIR ++ "/" ++ filename
  match fs with
  | .openFail e => (.error e, .noFile)
  | .writeFail e =>
    match serializePy data with
    | .error e0 => (.error e0, .incomplete)
    | .ok _ => (.error e, .incomplete)
  | .ok =>
    match serializePy data with
    | .error e0 => (.error e0, .incomplete)
    | .ok j => (.ok filepath, .written (json_dump_indent2 j))

/-- The success message run_job prints and returns. -/
def SUCCESS_MSG : String := "✅ Successfully fetched and saved Alpaca data"

/-- The failure message run_job builds from the caught exception. -/
def runJobErrMsg (e : PyExc) : String := "❌ Error in run_job: " ++ e.text

/-- run_job: fetch then save under one try/except.  Any exception from
either step is caught and turned into a (False, message) pair carrying
str(e); both steps succeeding yields (True, success message).  The network
trace and the on-disk effect are carried through for observation. -/
def run_job (env : Env) (now : Nat) (api : AlpacaApi) (fs : FsW)
    (agent_name : String) : (Bool × String) × List Event × FileEffect :=
  match fetch_alpaca_data env now api with
  | (.error e, tr) => ((false, runJobErrMsg e), tr, .noFile)
  | (.ok data, tr) =>
    match save_data data agent_name now fs with
    | (.error e, eff) => ((false, runJobErrMsg e), tr, eff)
    | (.ok _, eff) => ((true, SUCCESS_MSG), tr, eff)

/-! ## Reading the file back: json.loads -/

/-- JSON whitespace. -/
def isJsonWs (c : Char) : Bool := c = ' ' || c = '\t' || c = '\n' || c = '\r'

/-- Drop leading JSON whitespace. -/
def skipWs : List Char → List Char
  | [] => []
  | c :: cs => if isJsonWs c then skipWs cs else c :: cs

/-- ASCII decimal digit test (code points 48 to 57). -/
def isDigitCh (c : Char) : Bool := 48 ≤ c.toNat && c.toNat ≤ 57

/-- The value of one hex digit (0-9, a-f, A-F by code point range). -/
def hexVal (c : Char) : Option Nat :=
  if 48 ≤ c.toNat && c.toNat ≤ 57 then some (c.toNat - 48)
  else if 97 ≤ c.toNat && c.toNat ≤ 102 then some (c.toNat - 87)
  else if 65 ≤ c.toNat && c.toNat ≤ 70 then some (c.toNat - 55)
  else none

/-- Four hex digits off the front of the input. -/
def readHex4 : List Char → Option (Nat × List Char)
  | a :: b :: c :: d :: rest =>
    match hexVal a, hexVal b, hexVal c, hexVal d with
    | some va, some vb, some vc, some vd =>
      some (va * 4096 + vb * 256 + vc * 16 + vd, rest)
    | _, _, _, _ => none
  | _ => none

/-- The character named by a short backslash escape. -/
def escCode (c : Char) : Option Char :=
  if c = '"' then some '"'
  else if c = '\\' then some '\\'
  else if c = '/' then some '/'
  else if c = 'b' then some (Char.ofNat 8)
  else if c = 'f' then some (Char.ofNat 12)
  else if c = 'n' then some '\n'
  else if c = 'r' then some '\r'
  else if c = 't' then some '\t'
  else none

/-- Scan a JSON string body after its opening quote: plain characters up
to the closing quote, short escapes, u-escapes with surrogate pairs
recombined, raw control characters rejected (strict mode).  A lone
surrogate escape is rejected (such a string has no counterpart in the
model's unicode strings).  Fuel bounds the number of characters produced;
the caller passes the input length, which always suffices. -/
def scanString : Nat → List Char → Option (List Char × List Char)
  | 0, _ => none
  | _ + 1, [] => none
  | fuel + 1, c :: cs =>
    if c = '"' then some ([], cs)
    else if c = '\\' then
      match cs with
      | [] => none
      | e :: cs1 =>
        if e = 'u' then
          match readHex4 cs1 with
          | none => none
          | some (n, cs2) =>
            if 0xd800 ≤ n ∧ n ≤ 0xdbff then
              match cs2 with
              | '\\' :: 'u' :: cs3 =>
                match readHex4 cs3 with
                | none => none
                | some (n2, cs4) =>
                  if 0xdc00 ≤ n2 ∧ n2 ≤ 0xdfff then
                    match scanString fuel cs4 with
                    | none => none
                    | some (s, r) =>
                      some (Char.ofNat
                        (0x10000 + (n - 0xd800) * 0x400 + (n2 - 0xdc00)) :: s, r)
                  else none
              | _ => none
            else if 0xdc00 ≤ n ∧ n ≤ 0xdfff then none
            else
              match scanString fuel cs2 with
              | none => none
              | some (s, r) => some (Char.ofNat n :: s, r)
        else
          match escCode e with
          | none => none
          | some ch =>
            match scanString fuel cs1 with
            | none => none
            | some (s, r) => some (ch :: s, r)
    else if c.toNat < 0x20 then none
    else
      match scanString fuel cs with
      | none => none
      | some (s, r) => some (c :: s, r)

/-- Longest digit run at the front of the input. -/
def spanDigits : List Char → List Char × List Char
  | [] => ([], [])
  | c :: cs =>
    if isDigitCh c then
      let (ds, r) := spanDigits cs
      (c :: ds, r)
    else ([], c :: cs)

/-- The number named by a digit run, most significant first. -/
def digitsVal (ds : List Char) : Nat :=
  ds.foldl (fun a c => a * 10 + (c.toNat - 48)) 0

/-- An optional exponent suffix: e or E, an optional sign, digits.  When
the suffix is not well formed it is left unconsumed (the number match
simply ends before it), as the scanner's number regex does. -/
def parseExpOpt (cs : List Char) : Int × List Char :=
  match cs with
  | c :: cs1 =>
    if c = 'e' ∨ c = 'E' then
      let signDrop : Bool × List Char :=
        match cs1 with
        | c1 :: t =>
          if c1 = '-' then (true, t)
          else if c1 = '+' then (false, t)
          else (false, cs1)
        | [] => (false, [])
      let (ds, r) := spanDigits signDrop.2
      if ds = [] then (0, cs)
      else if signDrop.1 then (-(digitsVal ds : Int), r)
      else ((digitsVal ds : Int), r)
    else (0, cs)
  | [] => (0, [])

/-- A JSON number off the front of the input, following the scanner's
regex: optional minus, an integer part that is a single zero or starts
with a nonzero digit, an optional dot-and-digits fraction, an optional
exponent.  The result is the exact decimal value. -/
def parseNumber (cs : List Char) : Option (Dec × List Char) :=
  let signDrop : Bool × List Char :=
    match cs with
    | c :: t => if c = '-' then (true, t) else (false, cs)
    | [] => (false, [])
  let intPart : List Char × List Char :=
    match signDrop.2 with
    | c :: t => if c = '0' then (['0'], t) else spanDigits (c :: t)
    | [] => ([], [])
  if intPart.1 = [] then none
  else
    let fracPart : List Char × List Char :=
      match intPart.2 with
      | c :: t =>
        if c = '.' then
          let (fs0, r0) := spanDigits t
          if fs0 = [] then ([], intPart.2) else (fs0, r0)
        else ([], intPart.2)
      | [] => ([], [])
    let ex := parseExpOpt fracPart.2
    let mAbs : Nat := digitsVal intPart.1 * 10 ^ fracPart.1.length + digitsVal fracPart.1
    let m : Int := if signDrop.1 then -(mAbs : Int) else (mAbs : Int)
    if ex.1 ≥ 0 then some (⟨m * 10 ^ ex.1.toNat, fracPart.1.length⟩, ex.2)
    else some (⟨m, fracPart.1.length + ex.1.natAbs⟩, ex.2)

/-- Match a literal word at the head of the input, returning the tail
behind it. -/
def dropLit : List Char → List Char → Option (List Char)
  | [], cs => some cs
  | l :: ls, c :: cs => if c = l then dropLit ls cs else none
  | _ :: _, [] => none

mutual

/-- Parse one JSON value at the head of the input (whitespace already
skipped): dispatch on the first character to a string, an object, an
array, one of the three literals, or a number.  Fuel bounds the recursion
into containers; the top-level call supplies more than enough. -/
def parseValue : Nat → List Char → Option (JValue × List Char)
  | 0, _ => none
  | _ + 1, [] => none
  | fuel + 1, c :: cs =>
    if c = '"' then
      match scanString cs.length cs with
      | none => none
      | some (s, r) => some (.str (String.mk s), r)
    else if c = '{' then
      match skipWs cs with
      | [] => none
      | c1 :: r =>
        if c1 = '}' then some (.obj [], r) else parseMembers fuel (c1 :: r)
    else if c = '[' then
      match skipWs cs with
      | [] => none
      | c1 :: r =>
        if c1 = ']' then some (.arr [], r) else parseItems fuel (c1 :: r)
    else if c = 't' then
      match dropLit ['r', 'u', 'e'] cs with
      | none => none
      | some r => some (.bool true, r)
    else if c = 'f' then
      match dropLit ['a', 'l', 's', 'e'] cs with
      | none => none
      | some r => some (.bool false, r)
    else if c = 'n' then
      match dropLit ['u', 'l', 'l'] cs with
      | none => none
      | some r => some (.null, r)
    else
      match parseNumber (c :: cs) with
      | none => none
      | some (d, r) => some (.num d, r)

/-- Parse the members of a nonempty object, positioned at the first key:
key string, colon, value, then either a comma and more members or the
closing brace. -/
def parseMembers : Nat → List Char → Option (JValue × List Char)
  | 0, _ => none
  | fuel + 1, cs =>
    match cs with
    | [] => none
    | c :: cs1 =>
      if c = '"' then
        match scanString cs1.length cs1 with
        | none => none
        | some (k, cs2) =>
          match skipWs cs2 with
          | [] => none
          | c1 :: cs3 =>
            if c1 = ':' then
              match parseValue fuel (skipWs cs3) with
              | none => none
              | some (v, cs4) =>
                match skipWs cs4 with
                | [] => none
                | c2 :: cs5 =>
                  if c2 = ',' then
                    match parseMembers fuel (skipWs cs5) with
                    | some (.obj ms, r) => some (.obj ((String.mk k, v) :: ms), r)
                    | _ => none
                  else if c2 = '}' then some (.obj [(String.mk k, v)], cs5)
                  else none
            else none
      else none

/-- Parse the items of a nonempty array, positioned at the first item:
a value, then either a comma and more items or the closing bracket. -/
def parseItems : Nat → List Char → Option (JValue × List Char)
  | 0, _ => none
  | fuel + 1, cs =>
    match parseValue fuel cs with
    | none => none
    | some (v, cs1) =>
      match skipWs cs1 with
      | [] => none
      | c :: cs2 =>
        if c = ',' then
          match parseItems fuel (skipWs cs2) with
          | some (.arr vs, r) => some (.arr (v :: vs), r)
          | _ => none
        else if c = ']' then some (.arr [v], cs2)
        else none

end

/-- json.loads: skip surrounding whitespace, parse one document, require
nothing but whitespace after it. -/
def json_loads (s : String) : Option JValue :=
  let cs := skipWs s.toList
  match parseValue (cs.length + 1) cs with
  | some (v, r) => if skipWs r = [] then some v else none
  | none => none

/-! ## The document the loader reconstructs -/

/-- The decimal the loader reconstructs from the float display of d: the
same value, rescaled to the displayed digits (the display always shows at
least one fraction digit). -/
def readbackDec (d : Dec) : Dec :=
  let c := d.canon
  if c.e = 0 then ⟨c.m * 10, 1⟩ else c

mutual

/-- The document json.loads yields for a dumped document: identical up to
the rescaling of each number to its displayed digits. -/
def canonV : JValue → JValue
  | .null => .null
  | .bool b => .bool b
  | .num d => .num (readbackDec d)
  | .str s => .str s
  | .arr xs => .arr (canonItems xs)
  | .obj ms => .obj (canonMembers ms)

/-- canonV on each array item. -/
def canonItems : List JValue → List JValue
  | [] => []
  | x :: xs => canonV x :: canonItems xs

/-- canonV on each member value. -/
def canonMembers : List (String × JValue) → List (String × JValue)
  | [] => []
  | (k, v) :: ms => (k, canonV v) :: canonMembers ms

end

mutual

/-- Fuel sufficient for parseValue on the rendering of a value. -/
def sizeV : JValue → Nat
  | .null => 1
  | .bool _ => 1
  | .num _ => 1
  | .str _ => 1
  | .arr xs => sizeItems xs + 1
  | .obj ms => sizeMembers ms + 1

/-- Fuel sufficient for parseItems on rendered items. -/
def sizeItems : List JValue → Nat
  | [] => 1
  | x :: xs => sizeV x + sizeItems xs + 1

/-- Fuel sufficient for parseMembers on rendered members. -/
def sizeMembers : List (String × JValue) → Nat
  | [] => 1
  | (_, v) :: ms => sizeV v + sizeMembers ms + 1

end

mutual

/-- Every number in a document, in rendering order, as its exact value. -/
def numsOf : JValue → List ℚ
  | .null => []
  | .bool _ => []
  | .num d => [d.val]
  | .str _ => []
  | .arr xs => numsItems xs
  | .obj ms => numsMembers ms

/-- numsOf across array items. -/
def numsItems : List JValue → List ℚ
  | [] => []
  | x :: xs => numsOf x ++ numsItems xs

/-- numsOf across member values. -/
def numsMembers : List (String × JValue) → List ℚ
  | [] => []
  | (_, v) :: ms => numsOf v ++ numsMembers ms

end

/-- Lookup in the association lists of dicts and JSON objects. -/
def assocGet {α : Type} (key : String) : List (String × α) → Option α
  | [] => none
  | (k, v) :: fs => if k = key then some v else assocGet key fs

/-- The input does not start with a whitespace character. -/
def headNotWs : List Char → Prop
  | [] => True
  | c :: _ => isJsonWs c = false

/-- The input does not start with a digit character. -/
def headNotDigit : List Char → Prop
  | [] => True
  | c :: _ => isDigitCh c = false

/-- The input cannot extend a number token: it does not start with a
digit, an exponent letter, or a dot. -/
def numBoundary : List Char → Prop
  | [] => True
  | c :: _ => isDigitCh c = false ∧ c ≠ 'e' ∧ c ≠ 'E' ∧ c ≠ '.'

mutual

/-- A record made only of JSON-native values and UUIDs (no other opaque
object anywhere). -/
def goodPy : PyVal → Bool
  | .str _ => true
  | .float _ => true
  | .bool _ => true
  | .uuid _ => true
  | .dict fs => goodFields fs
  | .list xs => goodItems xs
  | .foreign _ => false

/-- goodPy across dict members. -/
def goodFields : List (String × PyVal) → Bool
  | [] => true
  | (_, v) :: fs => goodPy v && goodFields fs

/-- goodPy across list items. -/
def goodItems : List PyVal → Bool
  | [] => true
  | v :: xs => goodPy v && goodItems xs

end

mutual

/-- The intended document of a record, stated from the spec's words: a
unique-identifier value becomes its canonical string form, every other
value keeps the standard JSON number/string/bool encoding, containers map
structurally.  (The foreign case is arbitrary; it is unreachable under
goodPy.) -/
def pyToJson : PyVal → JValue
  | .str s => .str s
  | .float d => .num d
  | .bool b => .bool b
  | .uuid u => .str (uuidStr u)
  | .dict fs => .obj (pyToJsonFields fs)
  | .list xs => .arr (pyToJsonItems xs)
  | .foreign _ => .null

/-- pyToJson across dict members. -/
def pyToJsonFields : List (String × PyVal) → List (String × JValue)
  | [] => []
  | (k, v) :: fs => (k, pyToJson v) :: pyToJsonFields fs

/-- pyToJson across list items. -/
def pyToJsonItems : List PyVal → List JValue
  | [] => []
  | v :: xs => pyToJson v :: pyToJsonItems xs

end

/-- Statement of the value round trip: at any nesting level, with any
spare fuel and any boundary-safe tail, the parser reads the rendering of
v back as its loader image. -/
def ValueRT (v : JValue) : Prop :=
  ∀ (f lvl : Nat) (rest : List Char), numBoundary rest →
    parseValue (f + sizeV v) (renderJ lvl v ++ rest) = some (canonV v, rest)

/-! # Theorems

Helper lemmas first, then one theorem per claim (with a witness where the
theorem carries hypotheses). -/

mutual

/-- On records of natives and UUIDs, serialization succeeds and agrees
with the spec's intended encoding. -/
theorem serializePy_good : ∀ v : PyVal, goodPy v = true →
    serializePy v = .ok (pyToJson v)
  | .str _, _ => rfl
  | .float _, _ => rfl
  | .bool _, _ => rfl
  | .uuid _, _ => rfl
  | .foreign _, h => by simp [goodPy] at h
  | .dict fs, h => by
    rw [serializePy, serializeFields_good fs (by simpa [goodPy] using h)]
    rfl
  | .list xs, h => by
    rw [serializePy, serializeItems_good xs (by simpa [goodPy] using h)]
    rfl

/-- serializePy_good across dict members. -/
theorem serializeFields_good : ∀ fs, goodFields fs = true →
    serializeFields fs = .ok (pyToJsonFields fs)
  | [], _ => rfl
  | (k, v) :: fs, h => by
    have h1 : goodPy v = true := by
      have := h; rw [goodFields] at this; exact (Bool.and_eq_true _ _).mp this |>.1
    have h2 : goodFields fs = true := by
      have := h; rw [goodFields] at this; exact (Bool.and_eq_true _ _).mp this |>.2
    rw [serializeFields, serializePy_good v h1, serializeFields_good fs h2]
    rfl

/-- serializePy_good across list items. -/
theorem serializeItems_good : ∀ xs, goodItems xs = true →
    serializeItems xs = .ok (pyToJsonItems xs)
  | [], _ => rfl
  | v :: xs, h => by
    have h1 : goodPy v = true := by
      have := h; rw [goodItems] at this; exact (Bool.and_eq_true _ _).mp this |>.1
    have h2 : goodItems xs = true := by
      have := h; rw [goodItems] at this; exact (Bool.and_eq_true _ _).mp this |>.2
    rw [serializeItems, serializePy_good v h1, serializeItems_good xs h2]
    rfl

end

mutual

/-- A record containing any value that is neither JSON-native nor a UUID
fails to serialize, with a TypeError. -/
theorem serializePy_bad : ∀ v : PyVal, goodPy v = false →
    ∃ msg, serializePy v = .error (.typeError msg)
  | .str _, h => by simp [goodPy] at h
  | .float _, h => by simp [goodPy] at h
  | .bool _, h => by simp [goodPy] at h
  | .uuid _, h => by simp [goodPy] at h
  | .foreign t, _ =>
    ⟨"Object of type " ++ t ++ " is not JSON serializable", rfl⟩
  | .dict fs, h => by
    obtain ⟨msg, hm⟩ := serializeFields_bad fs (by simpa [goodPy] using h)
    exact ⟨msg, by rw [serializePy, hm]⟩
  | .list xs, h => by
    obtain ⟨msg, hm⟩ := serializeItems_bad xs (by simpa [goodPy] using h)
    exact ⟨msg, by rw [serializePy, hm]⟩

/-- serializePy_bad across dict members. -/
theorem serializeFields_bad : ∀ fs, goodFields fs = false →
    ∃ msg, serializeFields fs = .error (.typeError msg)
  | [], h => by simp [goodFields] at h
  | (k, v) :: fs, h => by
    cases hv : goodPy v with
    | false =>
      obtain ⟨msg, hm⟩ := serializePy_bad v hv
      exact ⟨msg, by rw [serializeFields, hm]⟩
    | true =>
      have hf : goodFields fs = false := by
        have := h; rw [goodFields, hv] at this; simpa using this
      obtain ⟨msg, hm⟩ := serializeFields_bad fs hf
      exact ⟨msg, by rw [serializeFields, serializePy_good v hv, hm]⟩

/-- serializePy_bad across list items. -/
theorem serializeItems_bad : ∀ xs, goodItems xs = false →
    ∃ msg, serializeItems xs = .error (.typeError msg)
  | [], h => by simp [goodItems] at h
  | v :: xs, h => by
    cases hv : goodPy v with
    | false =>
      obtain ⟨msg, hm⟩ := serializePy_bad v hv
      exact ⟨msg, by rw [serializeItems, hm]⟩
    | true =>
      have hf : goodItems xs = false := by
        have := h; rw [goodItems, hv] at this; simpa using this
      obtain ⟨msg, hm⟩ := serializeItems_bad xs hf
      exact ⟨msg, by rw [serializeItems, serializePy_good v hv, hm]⟩

end

/-- C1: run_job never lets an exception escape: an exception raised by
fetch_alpaca_data or save_data is caught and returned as (false, message
containing str(e)); success of both steps returns (true, success
message); and every run lands in one of those two shapes. -/
theorem run_job_exception_boundary (env : Env) (now : Nat) (api : AlpacaApi)
    (fs : FsW) (agent_name : String) :
    (∀ e, (fetch_alpaca_data env now api).1 = .error e →
      (run_job env now api fs agent_name).1 =
        (false, "❌ Error in run_job: " ++ e.text)) ∧
    (∀ data e, (fetch_alpaca_data env now api).1 = .ok data →
      (save_data data agent_name now fs).1 = .error e →
      (run_job env now api fs agent_name).1 =
        (false, "❌ Error in run_job: " ++ e.text)) ∧
    (∀ data fp, (fetch_alpaca_data env now api).1 = .ok data →
      (save_data data agent_name now fs).1 = .ok fp →
      (run_job env now api fs agent_name).1 = (true, SUCCESS_MSG)) ∧
    ((run_job env now api fs agent_name).1 = (true, SUCCESS_MSG) ∨
      ∃ e : PyExc, (run_job env now api fs agent_name).1 =
        (false, "❌ Error in run_job: " ++ e.text)) := by
  rcases hf : fetch_alpaca_data env now api with ⟨r, tr⟩
  cases r with
  | error e =>
    refine ⟨?_, ?_, ?_, ?_⟩
    · intro e' he'
      simp only [Prod.fst] at he'
      cases he'
      simp [run_job, hf, runJobErrMsg]
    · intro data e' hd
      simp at hd
    · intro data fp hd
      simp at hd
    · exact .inr ⟨e, by simp [run_job, hf, runJobErrMsg]⟩
  | ok data =>
    rcases hs : save_data data agent_name now fs with ⟨sr, eff⟩
    cases sr with
    | error e =>
      refine ⟨?_, ?_, ?_, ?_⟩
      · intro e' he'
        simp at he'
      · intro data' e' hd he'
        simp only [Prod.fst] at hd
        cases hd
        rw [hs] at he'
        simp only [Prod.fst] at he'
        cases he'
        simp [run_job, hf, hs, runJobErrMsg]
      · intro data' fp hd hfp
        simp only [Prod.fst] at hd
        cases hd
        rw [hs] at hfp
        simp at hfp
      · exact .inr ⟨e, by simp [run_job, hf, hs, runJobErrMsg]⟩
    | ok fp =>
      refine ⟨?_, ?_, ?_, ?_⟩
      · intro e' he'
        simp at he'
      · intro data' e' hd he'
        simp only [Prod.fst] at hd
        cases hd
        rw [hs] at he'
        simp at he'
      · intro data' fp' hd hfp
        simp only [Prod.fst] at hd
        cases hd
        simp [run_job, hf, hs]
      · exact .inl (by simp [run_job, hf, hs])

/-- C1 witness: with the credentials absent, fetch raises and run_job
returns the failure pair carrying the exception text. -/
theorem run_job_exception_boundary_witness :
    (run_job ⟨none, none, none⟩ 0
        ⟨.error (.transportError "boom"), .error (.transportError "boom")⟩
        .ok "default").1 =
      (false, "❌ Error in run_job: " ++
        (PyExc.valueError "Missing Alpaca API credentials").text) :=
  (run_job_exception_boundary ⟨none, none, none⟩ 0
      ⟨.error (.transportError "boom"), .error (.transportError "boom")⟩
      .ok "default").1 (.valueError "Missing Alpaca API credentials") rfl

/-- C2: an absent or empty credential makes fetch_alpaca_data raise the
credential ValueError with no client constructed and no network call in
the trace, and run_job turns it into a failure result, still with an
empty trace. -/
theorem fetch_missing_credentials (env : Env) (now : Nat) (api : AlpacaApi)
    (fs : FsW) (agent_name : String)
    (h : env.alpaca_api_key = none ∨ env.alpaca_api_key = some "" ∨
      env.alpaca_secret_key = none ∨ env.alpaca_secret_key = some "") :
    fetch_alpaca_data env now api =
      (.error (.valueError "Missing Alpaca API credentials"), []) ∧
    run_job env now api fs agent_name =
      ((false, "❌ Error in run_job: " ++
          (PyExc.valueError "Missing Alpaca API credentials").text),
        [], .noFile) := by
  have hc : (!pyTruthy env.alpaca_api_key || !pyTruthy env.alpaca_secret_key) = true := by
    rcases h with h | h | h | h
    · simp [pyTruthy, h]
    · rw [h, show (!pyTruthy (some "")) = true from rfl]
      rfl
    · simp [pyTruthy, h]
    · rw [h, show (!pyTruthy (some "")) = true from rfl]
      exact Bool.or_true _
  have hfetch : fetch_alpaca_data env now api =
      (.error (.valueError "Missing Alpaca API credentials"), []) := by
    rw [fetch_alpaca_data]
    simp [hc]
  exact ⟨hfetch, by simp [run_job, hfetch, runJobErrMsg]⟩

/-- C2 witness: concrete empty-string key. -/
theorem fetch_missing_credentials_witness :
    fetch_alpaca_data ⟨some "", some "k", none⟩ 5
        ⟨.error (.transportError "net"), .error (.transportError "net")⟩ =
      (.error (.valueError "Missing Alpaca API credentials"), []) :=
  (fetch_missing_credentials ⟨some "", some "k", none⟩ 5
      ⟨.error (.transportError "net"), .error (.transportError "net")⟩
      .ok "default" (.inr (.inl rfl))).1

/-- C3: save_data writes the record, dumped as JSON with 2-space
indentation, to <output dir>/<agent_name>_<YYYYMMDD_HHMMSS>.json, the
filename timestamp being the UTC+8-shifted capture time; in particular
agent name "default" gives exactly default_<timestamp>.json. -/
theorem save_data_filename_spec (data : PyVal) (agent_name : String)
    (now : Nat) (j : JValue) (h : serializePy data = .ok j) :
    save_data data agent_name now .ok =
      (.ok (DATA_DIR ++ "/" ++
          (agent_name ++ "_" ++ strftimeYmdHMS (get_malaysia_time now) ++ ".json")),
        .written (json_dump_indent2 j)) ∧
    save_data data "default" now .ok =
      (.ok (DATA_DIR ++ "/" ++
          ("default" ++ "_" ++ strftimeYmdHMS (get_malaysia_time now) ++ ".json")),
        .written (json_dump_indent2 j)) := by
  refine ⟨?_, ?_⟩
  · rw [save_data]
    simp [h]
  · rw [save_data]
    simp [h]

/-- C3 witness: a concrete record at a concrete instant lands in
default_19700101_080000.json. -/
theorem save_data_filename_spec_witness :
    save_data (.bool true) "default" 0 .ok =
      (.ok "dashboard/data/snapshots/default_19700101_080000.json",
        .written "true") := by
  have h := (save_data_filename_spec (.bool true) "default" 0 (.bool true) rfl).2
  rw [h]
  rfl

/-- C4: in any record built from JSON-native values and UUIDs, every UUID
is serialized by the custom encoder as its canonical string form (never a
nested object, never an error), and the native values keep the standard
encoding. -/
theorem uuid_serializes_as_string (v : PyVal) (h : goodPy v = true)
    (u : Nat) (s : String) (d : Dec) (b : Bool) :
    serializePy v = .ok (pyToJson v) ∧
    pyToJson (.uuid u) = .str (uuidStr u) ∧
    JSONEncoder.default (.uuid u) = .ok (.str (uuidStr u)) ∧
    serializePy (.uuid u) = .ok (.str (uuidStr u)) ∧
    pyToJson (.str s) = .str s ∧
    pyToJson (.float d) = .num d ∧
    pyToJson (.bool b) = .bool b :=
  ⟨serializePy_good v h, rfl, rfl, rfl, rfl, rfl, rfl⟩

/-- C4 witness: a dict with a UUID member serializes with the UUID as its
canonical string. -/
theorem uuid_serializes_as_string_witness :
    serializePy (.dict [("id", .uuid 0x123e4567e89b12d3a456426614174000)]) =
      .ok (.obj [("id", .str "123e4567-e89b-12d3-a456-426614174000")]) := by
  have h := (uuid_serializes_as_string
    (.dict [("id", .uuid 0x123e4567e89b12d3a456426614174000)]) rfl 0 "" ⟨0, 0⟩ true).1
  rw [h]
  rfl

/-- C5: on a successful fetch the top-level cash field is exactly the
account dict's cash field (both are float(account.cash)), and an empty
positions response yields an empty positions sequence. -/
theorem fetch_redundant_cash (env : Env) (now : Nat) (api : AlpacaApi)
    (account : RawAccount) (positions : List RawPosition)
    (hk : pyTruthy env.alpaca_api_key = true)
    (hs : pyTruthy env.alpaca_secret_key = true)
    (ha : api.get_account = .ok account)
    (hp : api.get_all_positions = .ok positions) :
    ∃ fields afields,
      (fetch_alpaca_data env now api).1 = .ok (.dict fields) ∧
      assocGet "account" fields = some (.dict afields) ∧
      assocGet "cash" fields = some (.float account.cash) ∧
      assocGet "cash" afields = some (.float account.cash) ∧
      (positions = [] → assocGet "positions" fields = some (.list [])) := by
  have hfetch : (fetch_alpaca_data env now api).1 = .ok (.dict
      [("account", accountData account now),
       ("positions", .list (positions.map positionItem)),
       ("cash", .float account.cash),
       ("timestamp", .str (isoformat (get_malaysia_time now)))]) := by
    rw [fetch_alpaca_data]
    simp [hk, hs, ha, hp]
  refine ⟨_, _, hfetch, rfl, rfl, rfl, ?_⟩
  intro hnil
  rw [hnil]
  rfl

/-- C5 witness: a concrete successful fetch with zero positions. -/
theorem fetch_redundant_cash_witness :
    ∃ fields afields,
      (fetch_alpaca_data ⟨some "k", some "s", none⟩ 0
          ⟨.ok ⟨0, ⟨10000, 1⟩, ⟨10000, 1⟩, ⟨10000, 1⟩, "USD", "ACTIVE", false,
            ⟨10000, 1⟩⟩, .ok []⟩).1 = .ok (.dict fields) ∧
      assocGet "account" fields = some (.dict afields) ∧
      assocGet "cash" fields = some (.float ⟨10000, 1⟩) ∧
      assocGet "cash" afields = some (.float ⟨10000, 1⟩) ∧
      (([] : List RawPosition) = [] → assocGet "positions" fields = some (.list [])) :=
  fetch_redundant_cash ⟨some "k", some "s", none⟩ 0
    ⟨.ok ⟨0, ⟨10000, 1⟩, ⟨10000, 1⟩, ⟨10000, 1⟩, "USD", "ACTIVE", false,
      ⟨10000, 1⟩⟩, .ok []⟩
    ⟨0, ⟨10000, 1⟩, ⟨10000, 1⟩, ⟨10000, 1⟩, "USD", "ACTIVE", false, ⟨10000, 1⟩⟩
    [] rfl rfl rfl rfl

/-- C6: get_malaysia_time is exactly the UTC instant plus a fixed 8-hour
offset (no DST, no timezone database), and both record timestamps —
account updated_at and the top-level timestamp — are its isoformat. -/
theorem get_malaysia_time_spec (t : Nat) (env : Env) (now : Nat)
    (api : AlpacaApi) (account : RawAccount) (positions : List RawPosition)
    (hk : pyTruthy env.alpaca_api_key = true)
    (hs : pyTruthy env.alpaca_secret_key = true)
    (ha : api.get_account = .ok account)
    (hp : api.get_all_positions = .ok positions) :
    get_malaysia_time t = t + 8 * 3600 ∧
    ∃ fields afields,
      (fetch_alpaca_data env now api).1 = .ok (.dict fields) ∧
      assocGet "account" fields = some (.dict afields) ∧
      assocGet "updated_at" afields =
        some (.str (isoformat (get_malaysia_time now))) ∧
      assocGet "timestamp" fields =
        some (.str (isoformat (get_malaysia_time now))) := by
  have hfetch : (fetch_alpaca_data env now api).1 = .ok (.dict
      [("account", accountData account now),
       ("positions", .list (positions.map positionItem)),
       ("cash", .float account.cash),
       ("timestamp", .str (isoformat (get_malaysia_time now)))]) := by
    rw [fetch_alpaca_data]
    simp [hk, hs, ha, hp]
  exact ⟨rfl, _, _, hfetch, rfl, rfl, rfl⟩

/-- C6 witness: the concrete fetch of the C5 witness carries both
timestamps as isoformat of the shifted instant. -/
theorem get_malaysia_time_spec_witness :
    get_malaysia_time 0 = 0 + 8 * 3600 ∧
    ∃ fields afields,
      (fetch_alpaca_data ⟨some "k", some "s", none⟩ 0
          ⟨.ok ⟨0, ⟨10000, 1⟩, ⟨10000, 1⟩, ⟨10000, 1⟩, "USD", "ACTIVE", false,
            ⟨10000, 1⟩⟩, .ok []⟩).1 = .ok (.dict fields) ∧
      assocGet "account" fields = some (.dict afields) ∧
      assocGet "updated_at" afields =
        some (.str (isoformat (get_malaysia_time 0))) ∧
      assocGet "timestamp" fields =
        some (.str (isoformat (get_malaysia_time 0))) :=
  get_malaysia_time_spec 0 ⟨some "k", some "s", none⟩ 0
    ⟨.ok ⟨0, ⟨10000, 1⟩, ⟨10000, 1⟩, ⟨10000, 1⟩, "USD", "ACTIVE", false,
      ⟨10000, 1⟩⟩, .ok []⟩
    ⟨0, ⟨10000, 1⟩, ⟨10000, 1⟩, ⟨10000, 1⟩, "USD", "ACTIVE", false, ⟨10000, 1⟩⟩
    [] rfl rfl rfl rfl

/-- C7: the paper-trading flag is true exactly when ALPACA_PAPER is unset
or case-insensitively equal to "true"; any other value means live mode,
and an absent variable defaults to paper mode. -/
theorem ALPACA_PAPER_spec (env : Env) :
    (ALPACA_PAPER env = true ↔
      env.alpaca_paper = none ∨
        ∃ s, env.alpaca_paper = some s ∧ strLower s = "true") ∧
    ALPACA_PAPER ⟨env.alpaca_api_key, env.alpaca_secret_key, none⟩ = true := by
  constructor
  · cases h : env.alpaca_paper with
    | none =>
      simp [ALPACA_PAPER, h]
      rfl
    | some s =>
      rw [ALPACA_PAPER, h]
      simp
  · rfl

/-- C8: an exception raised while opening or while writing the snapshot
file is re-raised by save_data unchanged, and the failure leaves the file
state as the failed step left it — no file from a failed open, a possibly
incomplete file from a failed write, never a cleanup. -/
theorem save_data_reraises (data : PyVal) (agent_name : String) (now : Nat)
    (e : PyExc) (j : JValue) (h : serializePy data = .ok j) :
    save_data data agent_name now (.openFail e) = (.error e, .noFile) ∧
    save_data data agent_name now (.writeFail e) = (.error e, .incomplete) := by
  refine ⟨?_, ?_⟩
  · rw [save_data]
  · rw [save_data]
    simp [h]

/-- C8 witness: a concrete failing write re-raises the I/O error. -/
theorem save_data_reraises_witness :
    save_data (.bool true) "default" 0 (.writeFail (.ioError "read-only")) =
      (.error (.ioError "read-only"), .incomplete) :=
  (save_data_reraises (.bool true) "default" 0 (.ioError "read-only")
    (.bool true) rfl).2

/-- C10: the custom encoder special-cases only UUID: any value that is
neither JSON-native nor a UUID is handed to the base hook, which raises
TypeError, and a record containing such a value fails to serialize
rather than producing output. -/
theorem encoder_default_only_uuid (t : String) (v : PyVal)
    (h : goodPy v = false) :
    JSONEncoder.default (.foreign t) = jsonEncoderBaseDefault (.foreign t) ∧
    JSONEncoder.default (.foreign t) =
      .error (.typeError ("Object of type " ++ t ++ " is not JSON serializable")) ∧
    serializePy (.foreign t) =
      .error (.typeError ("Object of type " ++ t ++ " is not JSON serializable")) ∧
    (∃ msg, serializePy v = .error (.typeError msg)) :=
  ⟨rfl, rfl, rfl, serializePy_bad v h⟩

/-- C10 witness: a record holding a datetime-like opaque object fails
with TypeError. -/
theorem encoder_default_only_uuid_witness :
    ∃ msg, serializePy (.dict [("when", .foreign "datetime")]) =
      .error (.typeError msg) :=
  (encoder_default_only_uuid "datetime" (.dict [("when", .foreign "datetime")])
    rfl).2.2.2

/-! ## Round-trip of the dump and the loader: character and digit facts -/

/-- Two characters with the same code point are equal. -/
theorem char_eq_of_toNat (a b : Char) (h : a.toNat = b.toNat) : a = b := by
  apply Char.ext
  apply UInt32.ext
  exact h

/-- Char.ofNat below the surrogate block keeps the code point. -/
theorem charOfNat_toNat_lt (m : Nat) (h : m < 0xd800) : (Char.ofNat m).toNat = m := by
  unfold Char.ofNat
  rw [dif_pos (Or.inl h)]
  simp [Char.ofNatAux, Char.toNat, UInt32.toNat, BitVec.toNat_ofNatLt]

/-- The code point of a digit character. -/
theorem digitChar10_toNat (n : Nat) : (digitChar10 n).toNat = 48 + n % 10 :=
  charOfNat_toNat_lt _ (by omega)

/-- Digit characters pass the digit test. -/
theorem isDigitCh_digitChar10 (n : Nat) : isDigitCh (digitChar10 n) = true := by
  simp [isDigitCh, digitChar10_toNat]
  omega

/-- digitsVal over a final digit. -/
theorem digitsVal_snoc (xs : List Char) (c : Char) :
    digitsVal (xs ++ [c]) = digitsVal xs * 10 + (c.toNat - 48) := by
  simp [digitsVal]

/-- natChars displays exactly its number. -/
theorem digitsVal_natChars (n : Nat) : digitsVal (natChars n) = n := by
  induction n using Nat.strong_induction_on with
  | _ n ih =>
    rw [natChars]
    by_cases h : n < 10
    · simp [h, digitsVal, digitChar10_toNat]
    · rw [if_neg h, digitsVal_snoc, ih (n / 10) (Nat.div_lt_self (by omega) (by omega)),
        digitChar10_toNat]
      omega

/-- Every character natChars produces is a digit. -/
theorem natChars_digits (n : Nat) : ∀ c ∈ natChars n, isDigitCh c = true := by
  induction n using Nat.strong_induction_on with
  | _ n ih =>
    rw [natChars]
    by_cases h : n < 10
    · simp [h]
      exact isDigitCh_digitChar10 n
    · rw [if_neg h]
      intro c hc
      rcases List.mem_append.mp hc with hc | hc
      · exact ih (n / 10) (Nat.div_lt_self (by omega) (by omega)) c hc
      · rcases List.mem_singleton.mp hc with rfl
        exact isDigitCh_digitChar10 n

/-- natChars of zero. -/
theorem natChars_zero : natChars 0 = ['0'] := by
  rw [natChars]
  simp
  exact char_eq_of_toNat _ _ rfl

/-- natChars of a nonzero number starts with a nonzero digit. -/
theorem natChars_head_pos (n : Nat) (hn : n ≠ 0) :
    ∃ c t, natChars n = c :: t ∧ isDigitCh c = true ∧ c ≠ '0' := by
  induction n using Nat.strong_induction_on with
  | _ n ih =>
    rw [natChars]
    by_cases h : n < 10
    · refine ⟨digitChar10 n, [], by simp [h], isDigitCh_digitChar10 n, ?_⟩
      intro hc
      have := congrArg Char.toNat hc
      rw [digitChar10_toNat] at this
      have h0 : ('0' : Char).toNat = 48 := rfl
      omega
    · rw [if_neg h]
      obtain ⟨c, t, hct, hdig, hne⟩ :=
        ih (n / 10) (Nat.div_lt_self (by omega) (by omega)) (by omega)
      exact ⟨c, t ++ [digitChar10 n], by rw [hct]; rfl, hdig, hne⟩

/-- natCharsPad has exactly the requested width. -/
theorem natCharsPad_length (w n : Nat) : (natCharsPad w n).length = w := by
  induction w generalizing n with
  | zero => rfl
  | succ w ih => simp [natCharsPad, ih]

/-- natCharsPad displays the number modulo ten to the width. -/
theorem digitsVal_natCharsPad (w n : Nat) :
    digitsVal (natCharsPad w n) = n % 10 ^ w := by
  induction w generalizing n with
  | zero => simp [natCharsPad, digitsVal, Nat.mod_one]
  | succ w ih =>
    rw [natCharsPad, digitsVal_snoc, ih, digitChar10_toNat]
    have h1 : n % 10 ^ (w + 1) = n / 10 % 10 ^ w * 10 + n % 10 := by
      rw [pow_succ, Nat.mul_comm (10 ^ w) 10, Nat.mod_mul]
      omega
    omega

/-- Every character natCharsPad produces is a digit. -/
theorem natCharsPad_digits (w n : Nat) : ∀ c ∈ natCharsPad w n, isDigitCh c = true := by
  induction w generalizing n with
  | zero => simp [natCharsPad]
  | succ w ih =>
    intro c hc
    rw [natCharsPad] at hc
    rcases List.mem_append.mp hc with hc | hc
    · exact ih (n / 10) c hc
    · rcases List.mem_singleton.mp hc with rfl
      exact isDigitCh_digitChar10 n

/-- spanDigits splits exactly at the first non-digit. -/
theorem spanDigits_exact (ds r : List Char) (hds : ∀ c ∈ ds, isDigitCh c = true)
    (hr : headNotDigit r) : spanDigits (ds ++ r) = (ds, r) := by
  induction ds with
  | nil =>
    cases r with
    | nil => rfl
    | cons c t =>
      simp only [headNotDigit] at hr
      simp [spanDigits, hr]
  | cons c ds ih =>
    have hc : isDigitCh c = true := hds c (by simp)
    have ih' := ih (fun x hx => hds x (by simp [hx]))
    simp [spanDigits, hc, ih']

/-- A digit character differs from any non-digit character. -/
theorem not_digit_lit (d : Char) (hd : isDigitCh d = false) (c : Char)
    (h : isDigitCh c = true) : c ≠ d := by
  intro he
  rw [he, hd] at h
  cases h

/-- At a number boundary no exponent suffix is consumed. -/
theorem parseExpOpt_boundary (cs : List Char) (h : numBoundary cs) :
    parseExpOpt cs = (0, cs) := by
  cases cs with
  | nil => rfl
  | cons c t =>
    obtain ⟨_, he, hE, _⟩ := h
    simp only [parseExpOpt]
    rw [if_neg]
    intro hor
    rcases hor with h1 | h1
    · exact he h1
    · exact hE h1

/-- natChars is never empty. -/
theorem natChars_ne_nil (n : Nat) : natChars n ≠ [] := by
  by_cases h : n = 0
  · rw [h, natChars_zero]
    simp
  · obtain ⟨c, t, hct, _, _⟩ := natChars_head_pos n h
    rw [hct]
    simp

/-- natChars starts with a digit. -/
theorem natChars_cons (n : Nat) :
    ∃ c t, natChars n = c :: t ∧ isDigitCh c = true := by
  by_cases h : n = 0
  · exact ⟨'0', [], by rw [h, natChars_zero], by decide⟩
  · obtain ⟨c, t, hct, hdig, _⟩ := natChars_head_pos n h
    exact ⟨c, t, hct, hdig⟩

/-- The number scanner on a displayed unsigned decimal: optional sign,
integer digits, dot, fraction digits, stopping at a number boundary. -/
theorem parseNumber_core (A : Nat) (F : List Char) (neg : Bool) (rest : List Char)
    (hF : ∀ c ∈ F, isDigitCh c = true) (hFne : F ≠ [])
    (hrest : numBoundary rest) :
    parseNumber ((if neg then ['-'] else []) ++ natChars A ++ '.' :: (F ++ rest)) =
      some (⟨if neg then -((A * 10 ^ F.length + digitsVal F : Nat) : Int)
             else ((A * 10 ^ F.length + digitsVal F : Nat) : Int), F.length⟩, rest) := by
  have hspanF : spanDigits (F ++ rest) = (F, rest) := by
    apply spanDigits_exact F rest hF
    cases rest with
    | nil => trivial
    | cons r t => exact hrest.1
  have hexp : parseExpOpt rest = (0, rest) := parseExpOpt_boundary rest hrest
  by_cases hA : A = 0
  · subst hA
    rw [natChars_zero]
    have h0 : digitsVal ['0'] = 0 := rfl
    cases neg with
    | false =>
      simp only [List.nil_append, List.cons_append, if_false, Bool.false_eq_true,
        ite_false, parseNumber]
      simp [hspanF, hexp, hFne, h0]
    | true =>
      simp only [List.cons_append, List.singleton_append, parseNumber, if_true]
      simp [hspanF, hexp, hFne, h0]
  · obtain ⟨c0, t0, hct, hdig, hne0⟩ := natChars_head_pos A hA
    have hval : digitsVal (c0 :: t0) = A := by
      rw [← hct]
      exact digitsVal_natChars A
    have hspanInt : spanDigits (c0 :: (t0 ++ '.' :: (F ++ rest))) =
        (c0 :: t0, '.' :: (F ++ rest)) := by
      have := spanDigits_exact (natChars A) ('.' :: (F ++ rest))
        (natChars_digits A) (by exact (by decide : isDigitCh '.' = false))
      rw [hct] at this
      simpa using this
    have hneDash : c0 ≠ '-' := not_digit_lit '-' (by decide) c0 hdig
    rw [hct]
    cases neg with
    | false =>
      simp only [List.nil_append, List.cons_append, parseNumber]
      simp [hneDash, hne0, hspanInt, hspanF, hexp, hFne, hval]
    | true =>
      simp only [List.cons_append, List.singleton_append, parseNumber]
      simp [hneDash, hne0, hspanInt, hspanF, hexp, hFne, hval]

/-- The loader reads back from the float display of d exactly the decimal
readbackDec d. -/
theorem parseNumber_renderDec (d : Dec) (rest : List Char) (h : numBoundary rest) :
    parseNumber (renderDec d ++ rest) = some (readbackDec d, rest) := by
  rw [renderDec, readbackDec]
  by_cases he : d.canon.e = 0
  · simp only [he, ite_true]
    have h0 : digitsVal ['0'] = 0 := rfl
    by_cases hm : d.canon.m < 0
    · rw [if_pos hm]
      have hc := parseNumber_core d.canon.m.natAbs ['0'] true rest
        (by decide) (by simp) h
      simp only [ite_true, List.singleton_append, List.cons_append,
        List.append_assoc, List.nil_append] at hc ⊢
      rw [hc, h0]
      simp only [List.length_singleton, pow_one, Nat.add_zero]
      have hmm : -((d.canon.m.natAbs * 10 : Nat) : Int) = d.canon.m * 10 := by
        omega
      rw [hmm]
    · rw [if_neg hm]
      have hc := parseNumber_core d.canon.m.natAbs ['0'] false rest
        (by decide) (by simp) h
      simp only [Bool.false_eq_true, ite_false, List.singleton_append,
        List.cons_append, List.append_assoc, List.nil_append] at hc ⊢
      rw [hc, h0]
      simp only [List.length_singleton, pow_one, Nat.add_zero]
      have hmm : ((d.canon.m.natAbs * 10 : Nat) : Int) = d.canon.m * 10 := by
        omega
      rw [hmm]
  · simp only [he, ite_false]
    have hlen := natCharsPad_length d.canon.e d.canon.m.natAbs
    have hFne : natCharsPad d.canon.e d.canon.m.natAbs ≠ [] := by
      intro hnil
      rw [hnil] at hlen
      exact he hlen.symm
    have hdv := digitsVal_natCharsPad d.canon.e d.canon.m.natAbs
    have hda : d.canon.m.natAbs / 10 ^ d.canon.e * 10 ^ d.canon.e +
        d.canon.m.natAbs % 10 ^ d.canon.e = d.canon.m.natAbs := by
      rw [Nat.mul_comm]
      exact Nat.div_add_mod d.canon.m.natAbs (10 ^ d.canon.e)
    by_cases hm : d.canon.m < 0
    · rw [if_pos hm]
      have hc := parseNumber_core (d.canon.m.natAbs / 10 ^ d.canon.e)
        (natCharsPad d.canon.e d.canon.m.natAbs) true rest
        (natCharsPad_digits _ _) hFne h
      simp only [ite_true, List.singleton_append, List.cons_append,
        List.append_assoc, List.nil_append] at hc ⊢
      rw [hc, hlen, hdv, hda]
      have hmm : -((d.canon.m.natAbs : Nat) : Int) = d.canon.m := by omega
      rw [hmm]
    · rw [if_neg hm]
      have hc := parseNumber_core (d.canon.m.natAbs / 10 ^ d.canon.e)
        (natCharsPad d.canon.e d.canon.m.natAbs) false rest
        (natCharsPad_digits _ _) hFne h
      simp only [Bool.false_eq_true, ite_false, List.singleton_append,
        List.cons_append, List.append_assoc, List.nil_append] at hc ⊢
      rw [hc, hlen, hdv, hda]
      have hmm : ((d.canon.m.natAbs : Nat) : Int) = d.canon.m := by omega
      rw [hmm]

/-- hexVal inverts hexDigitChar. -/
theorem hexVal_hexDigitChar (n : Nat) : hexVal (hexDigitChar n) = some (n % 16) := by
  have h16 : n % 16 < 16 := Nat.mod_lt _ (by omega)
  rw [hexDigitChar]
  by_cases h : n % 16 < 10
  · rw [if_pos h]
    have ht : (Char.ofNat (48 + n % 16)).toNat = 48 + n % 16 :=
      charOfNat_toNat_lt _ (by omega)
    rw [hexVal, ht, if_pos (by simp; omega)]
    simp
  · rw [if_neg h]
    have ht : (Char.ofNat (87 + n % 16)).toNat = 87 + n % 16 :=
      charOfNat_toNat_lt _ (by omega)
    rw [hexVal, ht, if_neg (by simp; omega), if_pos (by simp; omega)]
    simp

/-- readHex4 inverts the four-digit hex display of a 16-bit number. -/
theorem readHex4_hex4 (n : Nat) (h : n < 0x10000) (rest : List Char) :
    readHex4 (hex4 n ++ rest) = some (n, rest) := by
  have hshape : hex4 n = [hexDigitChar (n / 16 / 16 / 16), hexDigitChar (n / 16 / 16),
      hexDigitChar (n / 16), hexDigitChar n] := rfl
  rw [hshape]
  simp only [List.cons_append, List.nil_append, readHex4, hexVal_hexDigitChar]
  congr 1
  congr 1
  omega

/-- A character is never in the surrogate block. -/
theorem char_not_surrogate (c : Char) :
    c.toNat < 0xd800 ∨ (0xe000 ≤ c.toNat ∧ c.toNat < 0x110000) := by
  rcases c.valid with h | ⟨h1, h2⟩
  · left
    exact h
  · right
    exact ⟨h1, h2⟩

/-- The scanner walks one escaped character: it consumes the escape of c
off the front, produces c, and continues with one unit of fuel spent. -/
theorem scanString_cons (c : Char) (T : List Char) (fuel : Nat)
    (s r : List Char) (hT : scanString fuel T = some (s, r)) :
    scanString (fuel + 1) (escapeChar c ++ T) = some (c :: s, r) := by
  rw [escapeChar]
  by_cases h1 : c = '"'
  · subst h1
    rw [if_pos rfl]
    simp [scanString, escCode, hT]
  · rw [if_neg h1]
    by_cases h2 : c = '\\'
    · subst h2
      rw [if_pos rfl]
      simp [scanString, escCode, hT]
    · rw [if_neg h2]
      by_cases h3 : c.toNat = 8
      · rw [if_pos h3]
        have hch : Char.ofNat 8 = c :=
          char_eq_of_toNat _ _ (by rw [charOfNat_toNat_lt 8 (by omega), h3])
        simp [scanString, escCode, hT]
        exact hch
      · rw [if_neg h3]
        by_cases h4 : c.toNat = 9
        · rw [if_pos h4]
          have hch : ('\t' : Char) = c := char_eq_of_toNat _ _ (by rw [h4]; rfl)
          simp [scanString, escCode, hT]
          exact hch
        · rw [if_neg h4]
          by_cases h5 : c.toNat = 10
          · rw [if_pos h5]
            have hch : ('\n' : Char) = c := char_eq_of_toNat _ _ (by rw [h5]; rfl)
            simp [scanString, escCode, hT]
            exact hch
          · rw [if_neg h5]
            by_cases h6 : c.toNat = 12
            · rw [if_pos h6]
              have hch : Char.ofNat 12 = c :=
                char_eq_of_toNat _ _ (by rw [charOfNat_toNat_lt 12 (by omega), h6])
              simp [scanString, escCode, hT]
              exact hch
            · rw [if_neg h6]
              by_cases h7 : c.toNat = 13
              · rw [if_pos h7]
                have hch : ('\r' : Char) = c := char_eq_of_toNat _ _ (by rw [h7]; rfl)
                simp [scanString, escCode, hT]
                exact hch
              · rw [if_neg h7]
                by_cases h8 : c.toNat < 0x20
                · rw [if_pos h8]
                  have hrd := readHex4_hex4 c.toNat (by omega) T
                  have hs1 : ¬(0xd800 ≤ c.toNat ∧ c.toNat ≤ 0xdbff) := by omega
                  have hs2 : ¬(0xdc00 ≤ c.toNat ∧ c.toNat ≤ 0xdfff) := by omega
                  simp [scanString, hrd, hT, Char.ofNat_toNat, hs1, hs2]
                · rw [if_neg h8]
                  by_cases h9 : c.toNat ≤ 0x7e
                  · rw [if_pos h9]
                    simp [scanString, h1, h2, h8, hT]
                  · rw [if_neg h9]
                    have hval := char_not_surrogate c
                    by_cases h10 : c.toNat < 0x10000
                    · rw [if_pos h10]
                      have hrd := readHex4_hex4 c.toNat (by omega) T
                      have hs1 : ¬(0xd800 ≤ c.toNat ∧ c.toNat ≤ 0xdbff) := by omega
                      have hs2 : ¬(0xdc00 ≤ c.toNat ∧ c.toNat ≤ 0xdfff) := by omega
                      simp [scanString, hrd, hT, Char.ofNat_toNat, hs1, hs2]
                    · rw [if_neg h10]
                      have hcv : c.toNat < 0x110000 := by omega
                      have hrd1 := readHex4_hex4 (0xd800 + (c.toNat - 0x10000) / 0x400)
                        (by omega)
                        ('\\' :: 'u' :: (hex4 (0xdc00 + (c.toNat - 0x10000) % 0x400) ++ T))
                      have hrd2 := readHex4_hex4 (0xdc00 + (c.toNat - 0x10000) % 0x400)
                        (by omega) T
                      have hs1 : 0xd800 <= 0xd800 + (c.toNat - 0x10000) / 0x400 /\
                          0xd800 + (c.toNat - 0x10000) / 0x400 <= 0xdbff := by omega
                      have hs2 : 0xdc00 <= 0xdc00 + (c.toNat - 0x10000) % 0x400 /\
                          0xdc00 + (c.toNat - 0x10000) % 0x400 <= 0xdfff := by omega
                      simp only [List.cons_append, List.append_assoc, List.nil_append]
                      rw [scanString]
                      simp only [hrd1, reduceIte, reduceCtorEq]
                      rw [if_pos hs1]
                      simp only [hrd2]
                      rw [if_pos hs2]
                      rw [hT]
                      rw [show 0x10000 +
                        (0xd800 + (c.toNat - 0x10000) / 0x400 - 0xd800) * 0x400 +
                        (0xdc00 + (c.toNat - 0x10000) % 0x400 - 0xdc00) = c.toNat from
                        by omega]
                      rw [Char.ofNat_toNat]
                      simp

/-- The scanner inverts the escape of one string, consuming the closing
quote and leaving the tail. -/
theorem scanString_escape (l : List Char) : forall (f : Nat) (rest : List Char),
    scanString (f + l.length + 1) ((l.map escapeChar).flatten ++ '"' :: rest) =
      some (l, rest) := by
  induction l with
  | nil =>
    intro f rest
    simp [scanString]
  | cons c l ih =>
    intro f rest
    simp only [List.map_cons, List.flatten_cons, List.append_assoc, List.length_cons]
    rw [show f + (l.length + 1) + 1 = (f + l.length + 1) + 1 from by omega]
    exact scanString_cons c _ _ _ _ (ih f rest)

/-- Rebuilding a string from its character list is the identity. -/
theorem strMk_toList (s : String) : String.mk s.toList = s := rfl

/-- skipWs walks over spaces. -/
theorem skipWs_spacesN (n : Nat) (cs : List Char) :
    skipWs (spacesN n ++ cs) = skipWs cs := by
  induction n with
  | zero => rfl
  | succ n ih =>
    simp only [spacesN, List.replicate_succ, List.cons_append]
    rw [skipWs]
    simp [isJsonWs]
    exact ih

/-- skipWs stops at a non-whitespace character. -/
theorem skipWs_not (c : Char) (cs : List Char) (h : isJsonWs c = false) :
    skipWs (c :: cs) = c :: cs := by
  rw [skipWs, h]
  simp

/-- skipWs walks over a newline. -/
theorem skipWs_nl (cs : List Char) : skipWs ('\n' :: cs) = skipWs cs := by
  rw [skipWs]
  simp [isJsonWs]

/-- skipWs walks over one space. -/
theorem skipWs_space (cs : List Char) : skipWs (' ' :: cs) = skipWs cs := by
  rw [skipWs]
  simp [isJsonWs]

/-- Every character escape is nonempty. -/
theorem escapeChar_length_pos (c : Char) : 1 ≤ (escapeChar c).length := by
  rw [escapeChar]
  repeat' split
  all_goals simp

/-- The escape of a string is at least as long as the string. -/
theorem escapeString_length (l : List Char) :
    l.length ≤ ((l.map escapeChar).flatten).length := by
  induction l with
  | nil => simp
  | cons c l ih =>
    simp only [List.map_cons, List.flatten_cons, List.length_append, List.length_cons]
    have := escapeChar_length_pos c
    omega

/-- The scanner, fuelled by the input length, inverts a rendered string
body. -/
theorem scanString_renderString (k : String) (rest : List Char) :
    scanString (escapeString k ++ '"' :: rest).length (escapeString k ++ '"' :: rest) =
      some (k.toList, rest) := by
  show scanString ((k.toList.map escapeChar).flatten ++ '"' :: rest).length
    ((k.toList.map escapeChar).flatten ++ '"' :: rest) = some (k.toList, rest)
  have hlen : k.toList.length + 1 ≤
      ((k.toList.map escapeChar).flatten ++ '"' :: rest).length := by
    simp only [List.length_append, List.length_cons]
    have := escapeString_length k.toList
    omega
  rw [show ((k.toList.map escapeChar).flatten ++ '"' :: rest).length =
    (((k.toList.map escapeChar).flatten ++ '"' :: rest).length - (k.toList.length + 1)) +
      k.toList.length + 1 from by omega]
  exact scanString_escape k.toList _ rest

/-- The rendering of a decimal starts with a minus sign or a digit. -/
theorem renderDec_head (d : Dec) :
    ∃ c t, renderDec d = c :: t ∧ (c = '-' ∨ isDigitCh c = true) := by
  rw [renderDec]
  by_cases hm : d.canon.m < 0
  · rw [if_pos hm]
    by_cases he : d.canon.e = 0
    · rw [if_pos he]
      exact ⟨'-', _, rfl, Or.inl rfl⟩
    · rw [if_neg he]
      exact ⟨'-', _, rfl, Or.inl rfl⟩
  · rw [if_neg hm]
    by_cases he : d.canon.e = 0
    · rw [if_pos he]
      obtain ⟨c, t, hct, hdig⟩ := natChars_cons d.canon.m.natAbs
      rw [hct]
      exact ⟨c, _, rfl, Or.inr hdig⟩
    · rw [if_neg he]
      obtain ⟨c, t, hct, hdig⟩ := natChars_cons (d.canon.m.natAbs / 10 ^ d.canon.e)
      rw [hct]
      exact ⟨c, _, rfl, Or.inr hdig⟩

/-- A number-opening character is none of the other token openers. -/
theorem numHead_ne (c : Char) (hc : c = '-' ∨ isDigitCh c = true) (x : Char)
    (hx : isDigitCh x = false) (hxd : x ≠ '-') : c ≠ x := by
  rcases hc with rfl | h
  · exact fun he => hxd he.symm
  · exact not_digit_lit x hx c h

/-- A digit character is not whitespace. -/
theorem isJsonWs_of_digit (c : Char) (h : isDigitCh c = true) : isJsonWs c = false := by
  have h1 : c ≠ ' ' := not_digit_lit ' ' (by decide) c h
  have h2 : c ≠ '\t' := not_digit_lit '\t' (by decide) c h
  have h3 : c ≠ '\n' := not_digit_lit '\n' (by decide) c h
  have h4 : c ≠ '\r' := not_digit_lit '\r' (by decide) c h
  simp [isJsonWs, h1, h2, h3, h4]

/-- Every rendering starts with a non-whitespace character that also is
not a closing bracket or brace. -/
theorem renderJ_head (lvl : Nat) (v : JValue) :
    ∃ c t, renderJ lvl v = c :: t ∧ isJsonWs c = false ∧ c ≠ ']' ∧ c ≠ '}' := by
  cases v with
  | null => exact ⟨'n', _, rfl, by decide⟩
  | bool b =>
    cases b with
    | true => exact ⟨'t', _, rfl, by decide⟩
    | false => exact ⟨'f', _, rfl, by decide⟩
  | num d =>
    obtain ⟨c, t, hct, hc⟩ := renderDec_head d
    refine ⟨c, t, by rw [renderJ]; exact hct, ?_, ?_, ?_⟩
    · rcases hc with rfl | h
      · decide
      · exact isJsonWs_of_digit c h
    · exact numHead_ne c hc ']' (by decide) (by decide)
    · exact numHead_ne c hc '}' (by decide) (by decide)
  | str s => exact ⟨'"', _, rfl, by decide⟩
  | arr xs =>
    cases xs with
    | nil => exact ⟨'[', _, rfl, by decide⟩
    | cons x xs => exact ⟨'[', _, rfl, by decide⟩
  | obj ms =>
    cases ms with
    | nil => exact ⟨'{', _, rfl, by decide⟩
    | cons kv ms => exact ⟨'{', _, rfl, by decide⟩

/-- skipWs does not move at a rendering. -/
theorem skipWs_renderJ (lvl : Nat) (v : JValue) (T : List Char) :
    skipWs (renderJ lvl v ++ T) = renderJ lvl v ++ T := by
  obtain ⟨c, t, hct, hws, _, _⟩ := renderJ_head lvl v
  rw [hct, List.cons_append, skipWs_not c _ hws]

/-- Round trip for a rendered string value. -/
theorem valueRT_str (s : String) : ValueRT (.str s) := by
  intro f lvl rest _
  show parseValue (f + 1) (renderString s ++ rest) = some (.str s, rest)
  rw [renderString]
  simp only [List.cons_append, List.append_assoc, List.singleton_append,
    List.nil_append]
  rw [parseValue]
  simp only [reduceIte]
  rw [scanString_renderString s rest]
  rfl

/-- Round trip for a rendered number value. -/
theorem valueRT_num (d : Dec) : ValueRT (.num d) := by
  intro f lvl rest hrest
  show parseValue (f + 1) (renderDec d ++ rest) = some (.num (readbackDec d), rest)
  obtain ⟨c, t, hct, hc⟩ := renderDec_head d
  have hpn := parseNumber_renderDec d rest hrest
  rw [hct] at hpn ⊢
  simp only [List.cons_append] at hpn ⊢
  rw [parseValue]
  rw [if_neg (numHead_ne c hc '"' (by decide) (by decide)),
    if_neg (numHead_ne c hc '{' (by decide) (by decide)),
    if_neg (numHead_ne c hc '[' (by decide) (by decide)),
    if_neg (numHead_ne c hc 't' (by decide) (by decide)),
    if_neg (numHead_ne c hc 'f' (by decide) (by decide)),
    if_neg (numHead_ne c hc 'n' (by decide) (by decide))]
  rw [hpn]

/-- Round trip for rendered literals. -/
theorem valueRT_null : ValueRT .null := by
  intro f lvl rest _
  show parseValue (f + 1) (['n', 'u', 'l', 'l'] ++ rest) = some (.null, rest)
  simp [parseValue, dropLit]

/-- Round trip for rendered true. -/
theorem valueRT_true : ValueRT (.bool true) := by
  intro f lvl rest _
  show parseValue (f + 1) (['t', 'r', 'u', 'e'] ++ rest) = some (.bool true, rest)
  simp [parseValue, dropLit]

/-- Round trip for rendered false. -/
theorem valueRT_false : ValueRT (.bool false) := by
  intro f lvl rest _
  show parseValue (f + 1) (['f', 'a', 'l', 's', 'e'] ++ rest) = some (.bool false, rest)
  simp [parseValue, dropLit]

/-- numBoundary holds at any non-digit, non-exponent, non-dot head. -/
theorem numBoundary_cons (c : Char) (x : List Char) (h1 : isDigitCh c = false)
    (h2 : c ≠ 'e') (h3 : c ≠ 'E') (h4 : c ≠ '.') : numBoundary (c :: x) :=
  ⟨h1, h2, h3, h4⟩

/-- The member parser inverts a rendered nonempty member list followed by
the closing newline, indentation and brace. -/
theorem rt_members (L n : Nat) : ∀ (ms : List (String × JValue)),
    ∀ (k : String) (v : JValue), ValueRT v → (∀ p ∈ ms, ValueRT p.2) →
    ∀ (f : Nat) (rest : List Char),
    parseMembers (f + sizeV v + sizeMembers ms + 1)
      (renderMember L (k, v) ++ (renderObjTail L ms ++ '\n' :: (spacesN n ++ '}' :: rest))) =
      some (.obj (canonMembers ((k, v) :: ms)), rest) := by
  intro ms
  induction ms with
  | nil =>
    intro k v hv _ f rest
    rw [renderMember, renderString]
    simp only [renderObjTail, sizeMembers, List.cons_append, List.append_assoc,
      List.singleton_append, List.nil_append]
    have hstr := scanString_renderString k
      (':' :: ' ' :: (renderJ L v ++ '\n' :: (spacesN n ++ '}' :: rest)))
    have hws1 : skipWs (':' :: ' ' :: (renderJ L v ++ '\n' :: (spacesN n ++ '}' :: rest))) =
        ':' :: ' ' :: (renderJ L v ++ '\n' :: (spacesN n ++ '}' :: rest)) :=
      skipWs_not ':' _ (by decide)
    have hws2 : skipWs (' ' :: (renderJ L v ++ '\n' :: (spacesN n ++ '}' :: rest))) =
        renderJ L v ++ '\n' :: (spacesN n ++ '}' :: rest) := by
      rw [skipWs_space, skipWs_renderJ]
    have hval : parseValue (f + sizeV v + 1)
        (renderJ L v ++ '\n' :: (spacesN n ++ '}' :: rest)) =
        some (canonV v, '\n' :: (spacesN n ++ '}' :: rest)) := by
      rw [show f + sizeV v + 1 = (f + 1) + sizeV v from by omega]
      exact hv (f + 1) L _ (numBoundary_cons _ _ (by decide) (by decide) (by decide)
        (by decide))
    have hws3 : skipWs ('\n' :: (spacesN n ++ '}' :: rest)) = '}' :: rest := by
      rw [skipWs_nl, skipWs_spacesN, skipWs_not '}' _ (by decide)]
    rw [parseMembers]
    simp only [reduceIte, hstr, hws1, hws2, hval, hws3, canonMembers, strMk_toList]
    rw [if_neg (show ¬(('}' : Char) = ',') from by decide)]
  | cons kv2 ms ih =>
    intro k v hv hms f rest
    obtain ⟨k2, v2⟩ := kv2
    have hv2 : ValueRT v2 := hms (k2, v2) (by simp)
    have hms' : ∀ p ∈ ms, ValueRT p.2 := fun p hp => hms p (by simp [hp])
    rw [renderMember, renderString]
    simp only [renderObjTail, sizeMembers, List.cons_append, List.append_assoc,
      List.singleton_append, List.nil_append]
    have hstr := scanString_renderString k
      (':' :: ' ' :: (renderJ L v ++ ',' :: '\n' :: (spacesN (2 * L) ++
        (renderMember L (k2, v2) ++ (renderObjTail L ms ++ '\n' :: (spacesN n ++ '}' :: rest))))))
    have hws1 : skipWs (':' :: ' ' :: (renderJ L v ++ ',' :: '\n' :: (spacesN (2 * L) ++
        (renderMember L (k2, v2) ++ (renderObjTail L ms ++ '\n' :: (spacesN n ++ '}' :: rest)))))) =
        ':' :: ' ' :: (renderJ L v ++ ',' :: '\n' :: (spacesN (2 * L) ++
        (renderMember L (k2, v2) ++ (renderObjTail L ms ++ '\n' :: (spacesN n ++ '}' :: rest))))) :=
      skipWs_not ':' _ (by decide)
    have hws2 : skipWs (' ' :: (renderJ L v ++ ',' :: '\n' :: (spacesN (2 * L) ++
        (renderMember L (k2, v2) ++ (renderObjTail L ms ++ '\n' :: (spacesN n ++ '}' :: rest)))))) =
        renderJ L v ++ ',' :: '\n' :: (spacesN (2 * L) ++
        (renderMember L (k2, v2) ++ (renderObjTail L ms ++ '\n' :: (spacesN n ++ '}' :: rest)))) := by
      rw [skipWs_space, skipWs_renderJ]
    have hval : parseValue (f + sizeV v + (sizeV v2 + sizeMembers ms + 1))
        (renderJ L v ++ ',' :: '\n' :: (spacesN (2 * L) ++
        (renderMember L (k2, v2) ++ (renderObjTail L ms ++ '\n' :: (spacesN n ++ '}' :: rest))))) =
        some (canonV v, ',' :: '\n' :: (spacesN (2 * L) ++
        (renderMember L (k2, v2) ++ (renderObjTail L ms ++ '\n' :: (spacesN n ++ '}' :: rest))))) := by
      rw [show f + sizeV v + (sizeV v2 + sizeMembers ms + 1) =
        (f + sizeV v2 + sizeMembers ms + 1) + sizeV v from by omega]
      exact hv _ L _ (numBoundary_cons _ _ (by decide) (by decide) (by decide) (by decide))
    have hws3 : skipWs (',' :: '\n' :: (spacesN (2 * L) ++
        (renderMember L (k2, v2) ++ (renderObjTail L ms ++ '\n' :: (spacesN n ++ '}' :: rest))))) =
        ',' :: '\n' :: (spacesN (2 * L) ++
        (renderMember L (k2, v2) ++ (renderObjTail L ms ++ '\n' :: (spacesN n ++ '}' :: rest)))) :=
      skipWs_not ',' _ (by decide)
    have hws4 : skipWs ('\n' :: (spacesN (2 * L) ++
        (renderMember L (k2, v2) ++ (renderObjTail L ms ++ '\n' :: (spacesN n ++ '}' :: rest))))) =
        renderMember L (k2, v2) ++ (renderObjTail L ms ++ '\n' :: (spacesN n ++ '}' :: rest)) := by
      rw [skipWs_nl, skipWs_spacesN, renderMember, renderString]
      simp only [List.cons_append, List.append_assoc]
      exact skipWs_not '"' _ (by decide)
    rw [parseMembers]
    simp only [reduceIte, hstr, hws1, hws2, hval, hws3, hws4, canonMembers, strMk_toList]
    rw [show f + sizeV v + (sizeV v2 + sizeMembers ms + 1) =
      f + sizeV v + sizeV v2 + sizeMembers ms + 1 from by omega]
    have hrec := ih k2 v2 hv2 hms' (f + sizeV v) rest
    simp only [canonMembers] at hrec
    rw [show f + sizeV v + sizeV v2 + sizeMembers ms + 1 =
      (f + sizeV v) + sizeV v2 + sizeMembers ms + 1 from by omega]
    rw [hrec]

/-- The item parser inverts a rendered nonempty item list followed by the
closing newline, indentation and bracket. -/
theorem rt_items (L n : Nat) : ∀ (xs : List JValue),
    ∀ (v : JValue), ValueRT v → (∀ x ∈ xs, ValueRT x) →
    ∀ (f : Nat) (rest : List Char),
    parseItems (f + sizeV v + sizeItems xs + 1)
      (renderJ L v ++ (renderArrTail L xs ++ '\n' :: (spacesN n ++ ']' :: rest))) =
      some (.arr (canonItems (v :: xs)), rest) := by
  intro xs
  induction xs with
  | nil =>
    intro v hv _ f rest
    simp only [renderArrTail, sizeItems, List.nil_append]
    have hval : parseValue (f + sizeV v + 1)
        (renderJ L v ++ '\n' :: (spacesN n ++ ']' :: rest)) =
        some (canonV v, '\n' :: (spacesN n ++ ']' :: rest)) := by
      rw [show f + sizeV v + 1 = (f + 1) + sizeV v from by omega]
      exact hv (f + 1) L _ (numBoundary_cons _ _ (by decide) (by decide) (by decide)
        (by decide))
    have hws : skipWs ('\n' :: (spacesN n ++ ']' :: rest)) = ']' :: rest := by
      rw [skipWs_nl, skipWs_spacesN, skipWs_not ']' _ (by decide)]
    rw [parseItems]
    simp only [hval, hws, canonItems]
    rw [if_neg (show ¬((']' : Char) = ',') from by decide)]
    simp
  | cons x2 xs ih =>
    intro v hv hxs f rest
    have hx2 : ValueRT x2 := hxs x2 (by simp)
    have hxs' : ∀ x ∈ xs, ValueRT x := fun x hx => hxs x (by simp [hx])
    simp only [renderArrTail, sizeItems, List.cons_append, List.append_assoc]
    have hval : parseValue (f + sizeV v + (sizeV x2 + sizeItems xs + 1))
        (renderJ L v ++ ',' :: '\n' :: (spacesN (2 * L) ++
          (renderJ L x2 ++ (renderArrTail L xs ++ '\n' :: (spacesN n ++ ']' :: rest))))) =
        some (canonV v, ',' :: '\n' :: (spacesN (2 * L) ++
          (renderJ L x2 ++ (renderArrTail L xs ++ '\n' :: (spacesN n ++ ']' :: rest))))) := by
      rw [show f + sizeV v + (sizeV x2 + sizeItems xs + 1) =
        (f + sizeV x2 + sizeItems xs + 1) + sizeV v from by omega]
      exact hv _ L _ (numBoundary_cons _ _ (by decide) (by decide) (by decide) (by decide))
    have hws1 : skipWs (',' :: '\n' :: (spacesN (2 * L) ++
        (renderJ L x2 ++ (renderArrTail L xs ++ '\n' :: (spacesN n ++ ']' :: rest))))) =
        ',' :: '\n' :: (spacesN (2 * L) ++
        (renderJ L x2 ++ (renderArrTail L xs ++ '\n' :: (spacesN n ++ ']' :: rest))))  :=
      skipWs_not ',' _ (by decide)
    have hws2 : skipWs ('\n' :: (spacesN (2 * L) ++
        (renderJ L x2 ++ (renderArrTail L xs ++ '\n' :: (spacesN n ++ ']' :: rest))))) =
        renderJ L x2 ++ (renderArrTail L xs ++ '\n' :: (spacesN n ++ ']' :: rest)) := by
      rw [skipWs_nl, skipWs_spacesN, skipWs_renderJ]
    rw [parseItems]
    simp only [hval, hws1, hws2, canonItems, reduceIte]
    rw [show f + sizeV v + (sizeV x2 + sizeItems xs + 1) =
      (f + sizeV v) + sizeV x2 + sizeItems xs + 1 from by omega]
    have hrec := ih x2 hx2 hxs' (f + sizeV v) rest
    simp only [canonItems] at hrec
    rw [hrec]

/-- A rendered object member starts with a quote. -/
theorem renderMember_head (L : Nat) (k : String) (v : JValue) :
    ∃ t, renderMember L (k, v) = '"' :: t := by
  rw [renderMember, renderString]
  exact ⟨escapeString k ++ ['"'] ++ (':' :: ' ' :: renderJ L v), by simp⟩

/-- Every value round-trips: the parser reads any rendering back as its
loader image (strong induction on the size of the value). -/
theorem valueRT_all : ∀ (N : Nat) (v : JValue), sizeOf v ≤ N → ValueRT v := by
  intro N
  induction N with
  | zero =>
    intro v h
    cases v <;> simp at h
  | succ N ih =>
    intro v hN
    cases v with
    | null => exact valueRT_null
    | bool b =>
      cases b with
      | true => exact valueRT_true
      | false => exact valueRT_false
    | num d => exact valueRT_num d
    | str s => exact valueRT_str s
    | arr xs =>
      cases xs with
      | nil =>
        intro f lvl rest _
        rfl
      | cons x xs =>
        have hx : ValueRT x := by
          apply ih
          simp at hN
          omega
        have hxs : ∀ y ∈ xs, ValueRT y := by
          intro y hy
          apply ih
          have h1 := List.sizeOf_lt_of_mem hy
          simp at hN
          omega
        intro f lvl rest _
        show parseValue (f + sizeV (.arr (x :: xs)))
            (renderJ lvl (.arr (x :: xs)) ++ rest) =
          some (canonV (.arr (x :: xs)), rest)
        simp only [sizeV, sizeItems, renderJ, canonV, canonItems, List.cons_append,
          List.append_assoc, List.singleton_append, List.nil_append]
        rw [show f + (sizeV x + sizeItems xs + 1 + 1) =
          (f + (sizeV x + sizeItems xs + 1)) + 1 from by omega]
        rw [parseValue]
        rw [if_neg (show ¬(('[' : Char) = '"') from by decide),
          if_neg (show ¬(('[' : Char) = '{') from by decide), if_pos rfl]
        have hws0 : skipWs ('\n' :: (spacesN (2 * (lvl + 1)) ++
            (renderJ (lvl + 1) x ++ (renderArrTail (lvl + 1) xs ++
              '\n' :: (spacesN (2 * lvl) ++ ']' :: rest))))) =
            renderJ (lvl + 1) x ++ (renderArrTail (lvl + 1) xs ++
              '\n' :: (spacesN (2 * lvl) ++ ']' :: rest)) := by
          rw [skipWs_nl, skipWs_spacesN, skipWs_renderJ]
        rw [hws0]
        obtain ⟨c, t, hct, _, hne1, _⟩ := renderJ_head (lvl + 1) x
        simp only [hct, List.cons_append, hne1, reduceIte]
        rw [← List.cons_append, ← hct]
        rw [show f + (sizeV x + sizeItems xs + 1) =
          f + sizeV x + sizeItems xs + 1 from by omega]
        exact rt_items (lvl + 1) (2 * lvl) xs x hx hxs f rest
    | obj ms =>
      cases ms with
      | nil =>
        intro f lvl rest _
        rfl
      | cons kv ms =>
        obtain ⟨k, v⟩ := kv
        have hv : ValueRT v := by
          apply ih
          simp at hN
          omega
        have hms : ∀ p ∈ ms, ValueRT p.2 := by
          intro p hp
          apply ih
          have h1 := List.sizeOf_lt_of_mem hp
          obtain ⟨a, b⟩ := p
          simp at hN h1 ⊢
          omega
        intro f lvl rest _
        show parseValue (f + sizeV (.obj ((k, v) :: ms)))
            (renderJ lvl (.obj ((k, v) :: ms)) ++ rest) =
          some (canonV (.obj ((k, v) :: ms)), rest)
        simp only [sizeV, sizeMembers, renderJ, canonV, canonMembers,
          List.cons_append, List.append_assoc, List.singleton_append, List.nil_append]
        rw [show f + (sizeV v + sizeMembers ms + 1 + 1) =
          (f + (sizeV v + sizeMembers ms + 1)) + 1 from by omega]
        rw [parseValue]
        rw [if_neg (show ¬(('{' : Char) = '"') from by decide), if_pos rfl]
        obtain ⟨t, hmem⟩ := renderMember_head (lvl + 1) k v
        have hws0 : skipWs ('\n' :: (spacesN (2 * (lvl + 1)) ++
            (renderMember (lvl + 1) (k, v) ++ (renderObjTail (lvl + 1) ms ++
              '\n' :: (spacesN (2 * lvl) ++ '}' :: rest))))) =
            renderMember (lvl + 1) (k, v) ++ (renderObjTail (lvl + 1) ms ++
              '\n' :: (spacesN (2 * lvl) ++ '}' :: rest)) := by
          rw [skipWs_nl, skipWs_spacesN, hmem, List.cons_append,
            skipWs_not '"' _ (by decide)]
        rw [hws0]
        simp only [hmem, List.cons_append,
          show ¬(('"' : Char) = '}') from by decide, reduceIte]
        rw [← List.cons_append, ← hmem]
        rw [show f + (sizeV v + sizeMembers ms + 1) =
          f + sizeV v + sizeMembers ms + 1 from by omega]
        exact rt_members (lvl + 1) (2 * lvl) ms k v hv hms f rest

/-- Fuel bound: the parser fuel needed for a value is covered by the
length of its rendering plus one, and likewise for item and member tails. -/
theorem size_le_render : ∀ (N : Nat),
    (∀ v : JValue, sizeOf v ≤ N → ∀ lvl, sizeV v ≤ (renderJ lvl v).length + 1) ∧
    (∀ xs : List JValue, sizeOf xs ≤ N → ∀ lvl,
      sizeItems xs ≤ (renderArrTail lvl xs).length + 1) ∧
    (∀ ms : List (String × JValue), sizeOf ms ≤ N → ∀ lvl,
      sizeMembers ms ≤ (renderObjTail lvl ms).length + 1) := by
  intro N
  induction N with
  | zero =>
    refine ⟨?_, ?_, ?_⟩
    · intro v h
      cases v <;> simp at h
    · intro xs h
      cases xs <;> simp at h
    · intro ms h
      cases ms <;> simp at h
  | succ N ih =>
    obtain ⟨ih1, ih2, ih3⟩ := ih
    refine ⟨?_, ?_, ?_⟩
    · intro v hv lvl
      cases v with
      | null => simp [sizeV, renderJ]
      | bool b => cases b <;> simp [sizeV, renderJ]
      | num d =>
        simp only [sizeV]
        omega
      | str s =>
        simp only [sizeV]
        omega
      | arr xs =>
        cases xs with
        | nil => simp [sizeV, sizeItems, renderJ]
        | cons x xs =>
          have hx := ih1 x (by simp at hv; omega) (lvl + 1)
          have hxs := ih2 xs (by simp at hv; omega) (lvl + 1)
          simp only [sizeV, sizeItems, renderJ, List.length_append, List.length_cons,
            spacesN, List.length_replicate, List.length_singleton]
          omega
      | obj ms =>
        cases ms with
        | nil => simp [sizeV, sizeMembers, renderJ]
        | cons kv ms =>
          obtain ⟨k, v⟩ := kv
          have hv2 := ih1 v (by simp at hv; omega) (lvl + 1)
          have hms := ih3 ms (by simp at hv; omega) (lvl + 1)
          simp only [sizeV, sizeMembers, renderJ, renderMember, renderString,
            List.length_append, List.length_cons, spacesN, List.length_replicate,
            List.length_singleton]
          omega
    · intro xs h lvl
      cases xs with
      | nil => simp [sizeItems, renderArrTail]
      | cons x xs =>
        have hx := ih1 x (by simp at h; omega) lvl
        have hxs := ih2 xs (by simp at h; omega) lvl
        simp only [sizeItems, renderArrTail, List.length_append, List.length_cons,
          spacesN, List.length_replicate]
        omega
    · intro ms h lvl
      cases ms with
      | nil => simp [sizeMembers, renderObjTail]
      | cons kv ms =>
        obtain ⟨k, v⟩ := kv
        have hv2 := ih1 v (by simp at h; omega) lvl
        have hms := ih3 ms (by simp at h; omega) lvl
        simp only [sizeMembers, renderObjTail, renderMember, renderString,
          List.length_append, List.length_cons, spacesN, List.length_replicate,
          List.length_singleton]
        omega

/-- The loader inverts the dump: reading the dumped text of any document
yields its loader image. -/
theorem json_loads_dump (j : JValue) :
    json_loads (json_dump_indent2 j) = some (canonV j) := by
  rw [json_loads, json_dump_indent2]
  have htl : (String.mk (renderJ 0 j)).toList = renderJ 0 j := rfl
  rw [htl]
  have hskip : skipWs (renderJ 0 j) = renderJ 0 j := by
    have h1 := skipWs_renderJ 0 j []
    simpa using h1
  rw [hskip]
  have hb := (size_le_render (sizeOf j)).1 j (le_refl _) 0
  have hrt := valueRT_all (sizeOf j) j (le_refl _)
    ((renderJ 0 j).length + 1 - sizeV j) 0 [] trivial
  rw [List.append_nil] at hrt
  rw [show (renderJ 0 j).length + 1 =
    ((renderJ 0 j).length + 1 - sizeV j) + sizeV j from by omega]
  rw [hrt]
  simp [skipWs]

/-- Stripping trailing zero digits does not change a decimal's value. -/
theorem canonAux_val : ∀ (e : Nat) (m : Int), (canonAux m e).val = Dec.val ⟨m, e⟩ := by
  intro e
  induction e with
  | zero => intro m; rfl
  | succ e ih =>
    intro m
    rw [canonAux]
    by_cases h : m % 10 = 0
    · rw [if_pos h, ih (m / 10)]
      have hm : (10 : Int) * (m / 10) = m := by omega
      show ((m / 10 : Int) : ℚ) / (10 : ℚ) ^ e = (m : ℚ) / (10 : ℚ) ^ (e + 1)
      have hc : (m : ℚ) = 10 * ((m / 10 : Int) : ℚ) := by exact_mod_cast hm.symm
      rw [hc, pow_succ, mul_comm ((10 : ℚ) ^ e) 10]
      rw [mul_div_mul_left _ _ (by norm_num : (10 : ℚ) ≠ 0)]
    · rw [if_neg h]

/-- Canonicalization preserves the value of a decimal. -/
theorem Dec.canon_val (d : Dec) : d.canon.val = d.val := canonAux_val d.e d.m

/-- The decimal read back from a float display has the float's exact value. -/
theorem readbackDec_val (d : Dec) : (readbackDec d).val = d.val := by
  rw [readbackDec]
  by_cases he : d.canon.e = 0
  · rw [if_pos he, ← Dec.canon_val d]
    show ((d.canon.m * 10 : Int) : ℚ) / (10 : ℚ) ^ (1 : Nat) =
      (d.canon.m : ℚ) / (10 : ℚ) ^ d.canon.e
    rw [he]
    push_cast
    ring
  · rw [if_neg he]
    exact Dec.canon_val d

mutual

/-- The loader image of a document carries the same numbers. -/
theorem numsOf_canonV : ∀ v : JValue, numsOf (canonV v) = numsOf v
  | .null => rfl
  | .bool _ => rfl
  | .num d => by
    rw [canonV, numsOf, numsOf]
    rw [readbackDec_val]
  | .str _ => rfl
  | .arr xs => by
    rw [canonV, numsOf, numsOf]
    exact numsOf_canonItems xs
  | .obj ms => by
    rw [canonV, numsOf, numsOf]
    exact numsOf_canonMembers ms

/-- numsOf_canonV across array items. -/
theorem numsOf_canonItems : ∀ xs : List JValue, numsItems (canonItems xs) = numsItems xs
  | [] => rfl
  | x :: xs => by
    rw [canonItems, numsItems, numsItems]
    rw [numsOf_canonV x, numsOf_canonItems xs]

/-- numsOf_canonV across member values. -/
theorem numsOf_canonMembers :
    ∀ ms : List (String × JValue), numsMembers (canonMembers ms) = numsMembers ms
  | [] => rfl
  | (k, v) :: ms => by
    rw [canonMembers, numsMembers, numsMembers]
    rw [numsOf_canonV v, numsOf_canonMembers ms]

end

/-- Every appended position dict is made of natives. -/
theorem goodItems_positions (ps : List RawPosition) :
    goodItems (ps.map positionItem) = true := by
  induction ps with
  | nil => rfl
  | cons p ps ih =>
    simp only [List.map_cons, goodItems, ih, Bool.and_true]
    rfl

/-- The combined fetch record is made only of natives and the account UUID. -/
theorem goodPy_fetchRecord (account : RawAccount) (now : Nat)
    (ps : List RawPosition) :
    goodPy (.dict [
      ("account", accountData account now),
      ("positions", .list (ps.map positionItem)),
      ("cash", .float account.cash),
      ("timestamp", .str (isoformat (get_malaysia_time now)))]) = true := by
  simp only [goodPy, goodFields, accountData, goodItems_positions,
    Bool.and_true, Bool.true_and]

/-- The numbers of one encoded position dict, in member order. -/
theorem numsOf_position (p : RawPosition) :
    numsOf (pyToJson (positionItem p)) =
      [p.qty.val, p.market_value.val, p.cost_basis.val, p.unrealized_pl.val,
        p.unrealized_plpc.val, p.current_price.val, p.avg_entry_price.val] := rfl

/-- The numbers of the encoded positions list, position by position. -/
theorem numsOf_positions (ps : List RawPosition) :
    numsItems (pyToJsonItems (ps.map positionItem)) =
      (ps.map fun p => [p.qty.val, p.market_value.val, p.cost_basis.val,
        p.unrealized_pl.val, p.unrealized_plpc.val, p.current_price.val,
        p.avg_entry_price.val]).flatten := by
  induction ps with
  | nil => rfl
  | cons p ps ih =>
    simp only [List.map_cons, pyToJsonItems, numsItems, List.flatten_cons, ih,
      numsOf_position]

/-- The numbers of the encoded account_data dict, in member order. -/
theorem numsOf_account (a : RawAccount) (now : Nat) :
    numsOf (pyToJson (accountData a now)) =
      [a.cash.val, a.portfolio_value.val, a.buying_power.val, a.equity.val] := rfl

/-- C9: round trip.  For every record a successful fetch_alpaca_data
produces, save_data writes the dumped JSON text, and parsing that text
back reproduces every numeric field — the four account numbers, the seven
numbers of each position in order, and the top-level cash — as a value
exactly equal to the source value. -/
theorem round_trip_numeric (env : Env) (now : Nat) (api : AlpacaApi)
    (account : RawAccount) (positions : List RawPosition) (agent_name : String)
    (hk : pyTruthy env.alpaca_api_key = true)
    (hs : pyTruthy env.alpaca_secret_key = true)
    (ha : api.get_account = .ok account)
    (hp : api.get_all_positions = .ok positions) :
    ∃ (data : PyVal) (j w : JValue),
      (fetch_alpaca_data env now api).1 = .ok data ∧
      serializePy data = .ok j ∧
      (save_data data agent_name now .ok).2 = .written (json_dump_indent2 j) ∧
      json_loads (json_dump_indent2 j) = some w ∧
      numsOf w =
        [account.cash.val, account.portfolio_value.val, account.buying_power.val,
          account.equity.val] ++
        (positions.map fun p => [p.qty.val, p.market_value.val, p.cost_basis.val,
          p.unrealized_pl.val, p.unrealized_plpc.val, p.current_price.val,
          p.avg_entry_price.val]).flatten ++
        [account.cash.val] := by
  have hfetch : (fetch_alpaca_data env now api).1 = .ok (.dict
      [("account", accountData account now),
       ("positions", .list (positions.map positionItem)),
       ("cash", .float account.cash),
       ("timestamp", .str (isoformat (get_malaysia_time now)))]) := by
    rw [fetch_alpaca_data]
    simp [hk, hs, ha, hp]
  have hser := serializePy_good _ (goodPy_fetchRecord account now positions)
  refine ⟨_, _, _, hfetch, hser, ?_, json_loads_dump _, ?_⟩
  · rw [save_data]
    simp [hser]
  · rw [numsOf_canonV]
    rw [show numsOf (pyToJson (PyVal.dict
        [("account", accountData account now),
         ("positions", .list (positions.map positionItem)),
         ("cash", .float account.cash),
         ("timestamp", .str (isoformat (get_malaysia_time now)))])) =
      [account.cash.val, account.portfolio_value.val, account.buying_power.val,
        account.equity.val] ++
        (numsItems (pyToJsonItems (positions.map positionItem)) ++
          [account.cash.val]) from rfl]
    rw [numsOf_positions]
    simp [List.append_assoc]

/-- C9 witness: a concrete successful run with one position round-trips
its numbers exactly. -/
theorem round_trip_numeric_witness :
    ∃ (data : PyVal) (j w : JValue),
      (fetch_alpaca_data ⟨some "k", some "s", none⟩ 0
          ⟨.ok ⟨0, ⟨10000, 1⟩, ⟨10000, 1⟩, ⟨10000, 1⟩, "USD", "ACTIVE", false,
            ⟨10000, 1⟩⟩,
           .ok [⟨"AAPL", ⟨10, 0⟩, ⟨15005, 1⟩, ⟨14000, 1⟩, ⟨1005, 1⟩, ⟨718, 4⟩,
            ⟨15005, 2⟩, ⟨1400, 1⟩, "long", "NASDAQ"⟩]⟩).1 = .ok data ∧
      serializePy data = .ok j ∧
      (save_data data "agent" 0 .ok).2 = .written (json_dump_indent2 j) ∧
      json_loads (json_dump_indent2 j) = some w ∧
      numsOf w =
        [(⟨10000, 1⟩ : Dec).val, (⟨10000, 1⟩ : Dec).val, (⟨10000, 1⟩ : Dec).val,
          (⟨10000, 1⟩ : Dec).val] ++
        (([⟨"AAPL", ⟨10, 0⟩, ⟨15005, 1⟩, ⟨14000, 1⟩, ⟨1005, 1⟩, ⟨718, 4⟩,
            ⟨15005, 2⟩, ⟨1400, 1⟩, "long", "NASDAQ"⟩] : List RawPosition).map
          fun p => [p.qty.val, p.market_value.val, p.cost_basis.val,
            p.unrealized_pl.val, p.unrealized_plpc.val, p.current_price.val,
            p.avg_entry_price.val]).flatten ++
        [(⟨10000, 1⟩ : Dec).val] :=
  round_trip_numeric ⟨some "k", some "s", none⟩ 0
    ⟨.ok ⟨0, ⟨10000, 1⟩, ⟨10000, 1⟩, ⟨10000, 1⟩, "USD", "ACTIVE", false,
      ⟨10000, 1⟩⟩,
     .ok [⟨"AAPL", ⟨10, 0⟩, ⟨15005, 1⟩, ⟨14000, 1⟩, ⟨1005, 1⟩, ⟨718, 4⟩,
      ⟨15005, 2⟩, ⟨1400, 1⟩, "long", "NASDAQ"⟩]⟩
    ⟨0, ⟨10000, 1⟩, ⟨10000, 1⟩, ⟨10000, 1⟩, "USD", "ACTIVE", false, ⟨10000, 1⟩⟩
    [⟨"AAPL", ⟨10, 0⟩, ⟨15005, 1⟩, ⟨14000, 1⟩, ⟨1005, 1⟩, ⟨718, 4⟩,
      ⟨15005, 2⟩, ⟨1400, 1⟩, "long", "NASDAQ"⟩]
    "agent" rfl rfl rfl rfl
